import Mathlib

/-!
Verification of the mumble-streams wire codec library.

This file is a shallow embedding, in Lean 4, of the JavaScript sources of
the mumble-streams repository:

  * `src/lib/voice.js`   - the voice packet codec and the Mumble varint codec
  * `src/lib/data.js`    - the length-framed control channel codec
  * `src/lib/udp-crypto.js` - the OCB2-AES128 UDP crypto layer (`UdpCrypt`)

Modelling conventions.

  * JS `Buffer`s are `List Nat` whose entries are bytes (`< 256`).  A read
    `buf[i]` past the end of a buffer yields `undefined`, which every
    arithmetic/bitwise context of the sources coerces to `0`; it is thus
    modelled by `List.getD i 0`.  A store into a `Buffer` coerces with
    `ToUint8`, i.e. reduction modulo 256.
  * JS 32-bit bitwise operators work on `ToInt32` of their operands; the
    helpers `toInt32`, `jsNot`, `jsAnd` and `int32ofNat` below reproduce the
    exact semantics used by the sources.
  * The AES-128-ECB block cipher is provided by Node's `crypto` module and is
    out of scope of the repository; it enters the embedding as a pair of
    function parameters (encryption and decryption keyed by the key bytes).
  * IEEE-754 32-bit floats only ever cross the wire as their 4-byte
    big-endian images; a float value is modelled by those 4 bytes.
-/

namespace MumbleStreams

deriving instance DecidableEq for Except

/-! ## JavaScript numeric semantics -/

/-- `ToInt32` of an integer: reduce modulo `2^32` into `[-2^31, 2^31)`. -/
def toInt32 (i : Int) : Int :=
  if i % (2 ^ 32) < 2 ^ 31 then i % (2 ^ 32) else i % (2 ^ 32) - 2 ^ 32

/-- JS bitwise NOT `~i` (operates on the `ToInt32` image). -/
def jsNot (i : Int) : Int := -(toInt32 i) - 1

/-- Reassemble a nonnegative 32-bit pattern as a signed JS bitwise result. -/
def int32ofNat (n : Nat) : Int := toInt32 (n : Int)

/-- JS `i & m` for a nonnegative mask `m < 2^31`, returned as a `Nat`. -/
def jsAnd (i : Int) (m : Nat) : Nat := ((i % (2 ^ 32)).toNat) &&& m

/-! ## Varint codec (`toVarint` / `fromVarint` in `src/lib/voice.js`)

`toVarint` encodes the nonnegative range exactly as the source's chained
range tests; the byte pushed by `(i >> k) & 0xFF` equals `(i >>> k) &&& 0xFF`
on the `Nat` image for every `i < 2^32` (the sign of the intermediate
`ToInt32` value is masked away).  A `none` result models the thrown
`TypeError` for values `≥ 2^32`. -/

def toVarintCore (i : Nat) : Option (List Nat) :=
  if i < 0x80 then some [i]
  else if i < 0x4000 then some [(i >>> 8) ||| 0x80, i &&& 0xFF]
  else if i < 0x200000 then some [(i >>> 16) ||| 0xC0, (i >>> 8) &&& 0xFF, i &&& 0xFF]
  else if i < 0x10000000 then
    some [(i >>> 24) ||| 0xE0, (i >>> 16) &&& 0xFF, (i >>> 8) &&& 0xFF, i &&& 0xFF]
  else if i < 0x100000000 then
    some [0xF0, (i >>> 24) &&& 0xFF, (i >>> 16) &&& 0xFF, (i >>> 8) &&& 0xFF, i &&& 0xFF]
  else none

/-- The bytes produced by `toVarint(i)`.  For negative `i` the source first
complements (`i = ~i`), emits `0xFC | i` for small results (as a bare
`Buffer`), otherwise a `0xF8` marker followed by the nonnegative encoding. -/
def toVarint (i : Int) : Option (List Nat) :=
  if i < 0 then
    let j := jsNot i
    if j ≤ 3 then some [0xFC ||| ((j % 256).toNat)]
    else (toVarintCore j.toNat).map (fun l => 0xF8 :: l)
  else toVarintCore i.toNat

/-- `toVarint(i).value`: in the small-negative branch the source returns a
bare `Buffer`, so `.value` is `undefined` and any use of it crashes;
that case is `none` here. -/
def toVarintObjValue (i : Int) : Option (List Nat) :=
  if i < 0 ∧ jsNot i ≤ 3 then none else toVarint i

/-- `fromVarint(b)`: returns the decoded value and the number of bytes
consumed, or `none` (the source's `null`) on failure.  All byte values hit
one of the prefix branches; the trailing `none` is unreachable for byte
input.  Missing bytes read as `undefined` and coerce to `0` in the bitwise
reassembly, hence the `getD _ 0` reads. -/
def fromVarint : List Nat → Option (Int × Nat)
  | [] => none
  | v :: rest =>
    if v &&& 0x80 = 0x00 then some (((v &&& 0x7F : Nat) : Int), 1)
    else if v &&& 0xC0 = 0x80 then
      some (((((v &&& 0x3F) <<< 8) ||| rest.getD 0 0 : Nat) : Int), 2)
    else if v &&& 0xF0 = 0xF0 then
      if v &&& 0xFC = 0xF0 then
        some (int32ofNat ((rest.getD 0 0 <<< 24) ||| (rest.getD 1 0 <<< 16) |||
          (rest.getD 2 0 <<< 8) ||| rest.getD 3 0), 5)
      else if v &&& 0xFC = 0xF8 then
        match fromVarint rest with
        | none => none
        | some (x, len) => some (jsNot x, 1 + len)
      else if v &&& 0xFC = 0xFC then
        some (jsNot ((v &&& 0x03 : Nat) : Int), 1)
      else none
    else if v &&& 0xF0 = 0xE0 then
      some (((((v &&& 0x0F) <<< 24) ||| (rest.getD 0 0 <<< 16) |||
        (rest.getD 1 0 <<< 8) ||| rest.getD 2 0 : Nat) : Int), 4)
    else if v &&& 0xE0 = 0xC0 then
      some (((((v &&& 0x1F) <<< 16) ||| (rest.getD 0 0 <<< 8) |||
        rest.getD 1 0 : Nat) : Int), 3)
    else none

example : toVarint 5 = some [5] := by decide
example : toVarint 300 = some [0x81, 0x2C] := by decide
example : toVarint 1234567 = some [0xD2, 0xD6, 0x87] := by decide
example : fromVarint [0xD2, 0xD6, 0x87] = some (1234567, 3) := by decide
example : toVarint (-1) = some [0xFC] := by decide
example : toVarint (-5) = some [0xF8, 4] := by decide
example : fromVarint [0xF8, 4] = some (-5, 2) := by decide
example : fromVarint [0xF4] = none := by decide
example : toVarint 4294967295 = some [0xF0, 0xFF, 0xFF, 0xFF, 0xFF] := by decide
example : fromVarint [0xF0, 0xFF, 0xFF, 0xFF, 0xFF] = some (-1, 5) := by decide

/-! ## Bit-arithmetic toolkit -/

theorem and_eq_zero {a m k : Nat} (ha : a < 2 ^ k) (hm : m % 2 ^ k = 0) : a &&& m = 0 := by
  apply Nat.eq_of_testBit_eq
  intro i
  simp only [Nat.testBit_and, Nat.zero_testBit, Bool.and_eq_false_iff]
  rcases Nat.lt_or_ge i k with hik | hik
  · right
    obtain ⟨q, rfl⟩ : ∃ q, m = 2 ^ k * q :=
      ⟨m / 2 ^ k, by rw [Nat.mul_comm]; exact (Nat.div_mul_cancel (Nat.dvd_of_mod_eq_zero hm)).symm⟩
    have hsplit : (2 : Nat) ^ k = 2 ^ i * (2 * 2 ^ (k - i - 1)) := by
      rw [← pow_succ']
      rw [← pow_add]
      congr 1
      omega
    rw [Nat.testBit_to_div_mod, hsplit]
    have : 2 ^ i * (2 * 2 ^ (k - i - 1)) * q / 2 ^ i = 2 * (2 ^ (k - i - 1) * q) := by
      rw [Nat.mul_assoc, Nat.mul_div_cancel_left _ (Nat.pos_pow_of_pos i (by norm_num))]
      ring
    rw [this]
    simp [Nat.mul_mod_right]
  · left
    exact Nat.testBit_lt_two_pow (lt_of_lt_of_le ha (Nat.pow_le_pow_right (by norm_num) hik))

theorem or_eq_add {b a k : Nat} (hb : b % 2 ^ k = 0) (ha : a < 2 ^ k) :
    b ||| a = b + a := by
  obtain ⟨q, rfl⟩ : ∃ q, b = 2 ^ k * q :=
    ⟨b / 2 ^ k, by
      rw [Nat.mul_comm]; exact (Nat.div_mul_cancel (Nat.dvd_of_mod_eq_zero hb)).symm⟩
  exact (Nat.mul_add_lt_is_or ha q).symm

theorem or_and_eval {b a m k : Nat} (ha : a < 2 ^ k) (hm : m % 2 ^ k = 0) :
    (b ||| a) &&& m = b &&& m := by
  rw [Nat.and_distrib_right, and_eq_zero ha hm, Nat.or_zero]

theorem or_and_eval' {b a m : Nat} (hbm : b &&& m = 0) :
    (b ||| a) &&& m = a &&& m := by
  rw [Nat.and_distrib_right, hbm, Nat.zero_or]

theorem and_mask_mod {a k : Nat} : a &&& (2 ^ k - 1) = a % 2 ^ k :=
  Nat.and_pow_two_sub_one_eq_mod a k

theorem toInt32_ofNat_small {n : Nat} (h : n < 2 ^ 31) : toInt32 (n : Int) = (n : Int) := by
  unfold toInt32
  have hn31 : (n : Int) < 2 ^ 31 := by exact_mod_cast h
  have h1 : (n : Int) % (2 ^ 32) = (n : Int) :=
    Int.emod_eq_of_lt (Int.ofNat_nonneg n) (lt_trans hn31 (by norm_num))
  rw [h1, if_pos hn31]

theorem toInt32_neg_small {i : Int} (h1 : -(2 ^ 31) ≤ i) (h2 : i < 0) : toInt32 i = i := by
  unfold toInt32
  have e1 : (2 : Int) ^ 31 = 2147483648 := by norm_num
  have e2 : (2 : Int) ^ 32 = 4294967296 := by norm_num
  rw [e1, e2]
  rw [e1] at h1
  split <;> omega

theorem jsNot_neg {i : Int} (h1 : -(2 ^ 31) ≤ i) (h2 : i < 0) : jsNot i = -i - 1 := by
  unfold jsNot
  rw [toInt32_neg_small h1 h2]

theorem jsNot_ofNat_small {n : Nat} (h : n < 2 ^ 31) : jsNot (n : Int) = -(n : Int) - 1 := by
  unfold jsNot
  rw [toInt32_ofNat_small h]

/-! ## Varint round trip -/

theorem and_127 (a : Nat) : a &&& 0x7F = a % 128 := by
  have h := Nat.and_pow_two_sub_one_eq_mod a 7
  norm_num at h
  exact h

theorem and_255 (a : Nat) : a &&& 0xFF = a % 256 := by
  have h := Nat.and_pow_two_sub_one_eq_mod a 8
  norm_num at h
  exact h

theorem and_63 (a : Nat) : a &&& 0x3F = a % 64 := by
  have h := Nat.and_pow_two_sub_one_eq_mod a 6
  norm_num at h
  exact h

theorem and_31 (a : Nat) : a &&& 0x1F = a % 32 := by
  have h := Nat.and_pow_two_sub_one_eq_mod a 5
  norm_num at h
  exact h

theorem and_15 (a : Nat) : a &&& 0x0F = a % 16 := by
  have h := Nat.and_pow_two_sub_one_eq_mod a 4
  norm_num at h
  exact h

theorem and_3 (a : Nat) : a &&& 0x03 = a % 4 := by
  have h := Nat.and_pow_two_sub_one_eq_mod a 2
  norm_num at h
  exact h

theorem and_8191 (a : Nat) : a &&& 0x1FFF = a % 8192 := by
  have h := Nat.and_pow_two_sub_one_eq_mod a 13
  norm_num at h
  exact h

theorem shr8 (a : Nat) : a >>> 8 = a / 256 := Nat.shiftRight_eq_div_pow a 8

theorem shr16 (a : Nat) : a >>> 16 = a / 65536 := Nat.shiftRight_eq_div_pow a 16

theorem shr24 (a : Nat) : a >>> 24 = a / 16777216 := Nat.shiftRight_eq_div_pow a 24

theorem fromVarint_b1 (j : Nat) (h1 : j < 0x80) (rest : List Nat) :
    fromVarint (j :: rest) = some ((j : Int), 1) := by
  have hb : j &&& 0x80 = 0 := and_eq_zero (k := 7) h1 (by norm_num)
  have hv : j &&& 0x7F = j := by rw [and_127, Nat.mod_eq_of_lt h1]
  simp [fromVarint, hb, hv]

theorem fromVarint_b2 (j : Nat) (hhi : j < 0x4000) (rest : List Nat) :
    fromVarint (((j >>> 8) ||| 0x80) :: (j &&& 0xFF) :: rest) = some ((j : Int), 2) := by
  have ha : j / 256 < 64 := by omega
  rw [shr8, Nat.or_comm (j / 256) 0x80]
  have hc1 : ((0x80 : Nat) ||| (j / 256)) &&& 0x80 = 0x80 := by
    rw [or_and_eval (k := 6) ha (by norm_num)]
    decide
  have hc2 : ((0x80 : Nat) ||| (j / 256)) &&& 0xC0 = 0x80 := by
    rw [or_and_eval (k := 6) ha (by norm_num)]
    decide
  have hval : ((0x80 : Nat) ||| (j / 256)) &&& 0x3F = j / 256 := by
    rw [or_and_eval' (by decide), and_63, Nat.mod_eq_of_lt ha]
  have hasm : ((j / 256) <<< 8) ||| (j % 256) = j := by
    rw [Nat.shiftLeft_eq, or_eq_add (k := 8) (by omega) (by omega)]
    omega
  simp [fromVarint, hc1, hc2, hval, and_255, hasm]

theorem fromVarint_b3 (j : Nat) (hhi : j < 0x200000) (rest : List Nat) :
    fromVarint (((j >>> 16) ||| 0xC0) :: ((j >>> 8) &&& 0xFF) :: (j &&& 0xFF) :: rest) =
      some ((j : Int), 3) := by
  have ha : j / 65536 < 32 := by omega
  rw [shr16, shr8, Nat.or_comm (j / 65536) 0xC0]
  have hc1 : ((0xC0 : Nat) ||| (j / 65536)) &&& 0x80 = 0x80 := by
    rw [or_and_eval (k := 5) ha (by norm_num)]
    decide
  have hc2 : ((0xC0 : Nat) ||| (j / 65536)) &&& 0xC0 = 0xC0 := by
    rw [or_and_eval (k := 5) ha (by norm_num)]
    decide
  have hmand := lt_of_le_of_lt (Nat.and_le_left (n := j / 65536) (m := 0xF0)) ha
  have hc3 : ((0xC0 : Nat) ||| (j / 65536)) &&& 0xF0 = 0xC0 + ((j / 65536) &&& 0xF0) := by
    rw [Nat.and_distrib_right, show (0xC0 : Nat) &&& 0xF0 = 0xC0 by decide,
      or_eq_add (k := 5) (by norm_num) hmand]
  have hc3a : ((0xC0 : Nat) ||| (j / 65536)) &&& 0xF0 ≠ 0xF0 := by
    rw [hc3]; omega
  have hc3b : ((0xC0 : Nat) ||| (j / 65536)) &&& 0xF0 ≠ 0xE0 := by
    rw [hc3]; omega
  have hc4 : ((0xC0 : Nat) ||| (j / 65536)) &&& 0xE0 = 0xC0 := by
    rw [or_and_eval (k := 5) ha (by norm_num)]
    decide
  have hval : ((0xC0 : Nat) ||| (j / 65536)) &&& 0x1F = j / 65536 := by
    rw [or_and_eval' (by decide), and_31, Nat.mod_eq_of_lt ha]
  have hasm : ((j / 65536) <<< 16) ||| ((j / 256 % 256) <<< 8) ||| (j % 256) = j := by
    have m8 : j / 256 % 256 < 256 := Nat.mod_lt _ (by norm_num)
    rw [Nat.shiftLeft_eq, Nat.shiftLeft_eq]
    rw [or_eq_add (b := j / 65536 * 2 ^ 16) (a := j / 256 % 256 * 2 ^ 8) (k := 16)
      (by omega) (by omega)]
    rw [or_eq_add (k := 8) (by omega) (by omega)]
    omega
  simp [fromVarint, hc1, hc2, hc3a, hc3b, hc4, hval, and_255, hasm]

theorem fromVarint_b4 (j : Nat) (hhi : j < 0x10000000) (rest : List Nat) :
    fromVarint (((j >>> 24) ||| 0xE0) :: ((j >>> 16) &&& 0xFF) :: ((j >>> 8) &&& 0xFF) ::
        (j &&& 0xFF) :: rest) = some ((j : Int), 4) := by
  have ha : j / 16777216 < 16 := by omega
  rw [shr24, shr16, shr8, Nat.or_comm (j / 16777216) 0xE0]
  have hc1 : ((0xE0 : Nat) ||| (j / 16777216)) &&& 0x80 = 0x80 := by
    rw [or_and_eval (k := 4) ha (by norm_num)]
    decide
  have hc2 : ((0xE0 : Nat) ||| (j / 16777216)) &&& 0xC0 = 0xC0 := by
    rw [or_and_eval (k := 4) ha (by norm_num)]
    decide
  have hc3 : ((0xE0 : Nat) ||| (j / 16777216)) &&& 0xF0 = 0xE0 := by
    rw [or_and_eval (k := 4) ha (by norm_num)]
    decide
  have hval : ((0xE0 : Nat) ||| (j / 16777216)) &&& 0x0F = j / 16777216 := by
    rw [or_and_eval' (by decide), and_15, Nat.mod_eq_of_lt ha]
  have hasm : ((j / 16777216) <<< 24) ||| ((j / 65536 % 256) <<< 16) |||
      ((j / 256 % 256) <<< 8) ||| (j % 256) = j := by
    have m16 : j / 65536 % 256 < 256 := Nat.mod_lt _ (by norm_num)
    have m8 : j / 256 % 256 < 256 := Nat.mod_lt _ (by norm_num)
    rw [Nat.shiftLeft_eq, Nat.shiftLeft_eq, Nat.shiftLeft_eq]
    rw [or_eq_add (b := j / 16777216 * 2 ^ 24) (a := j / 65536 % 256 * 2 ^ 16) (k := 24)
      (by omega) (by omega)]
    rw [or_eq_add (b := j / 16777216 * 2 ^ 24 + j / 65536 % 256 * 2 ^ 16)
      (a := j / 256 % 256 * 2 ^ 8) (k := 16) (by omega) (by omega)]
    rw [or_eq_add (k := 8) (by omega) (by omega)]
    omega
  simp [fromVarint, hc1, hc2, hc3, hval, and_255, hasm]

theorem fromVarint_b5 (j : Nat) (hhi : j < 0x100000000) (rest : List Nat) :
    fromVarint (0xF0 :: ((j >>> 24) &&& 0xFF) :: ((j >>> 16) &&& 0xFF) ::
        ((j >>> 8) &&& 0xFF) :: (j &&& 0xFF) :: rest) = some (toInt32 (j : Int), 5) := by
  rw [shr24, shr16, shr8]
  have hmask24 : (j / 16777216) &&& 0xFF = j / 16777216 := by
    rw [and_255, Nat.mod_eq_of_lt (by omega)]
  have hasm : ((j / 16777216) <<< 24) ||| ((j / 65536 % 256) <<< 16) |||
      ((j / 256 % 256) <<< 8) ||| (j % 256) = j := by
    have m16 : j / 65536 % 256 < 256 := Nat.mod_lt _ (by norm_num)
    have m8 : j / 256 % 256 < 256 := Nat.mod_lt _ (by norm_num)
    rw [Nat.shiftLeft_eq, Nat.shiftLeft_eq, Nat.shiftLeft_eq]
    rw [or_eq_add (b := j / 16777216 * 2 ^ 24) (a := j / 65536 % 256 * 2 ^ 16) (k := 24)
      (by omega) (by omega)]
    rw [or_eq_add (b := j / 16777216 * 2 ^ 24 + j / 65536 % 256 * 2 ^ 16)
      (a := j / 256 % 256 * 2 ^ 8) (k := 16) (by omega) (by omega)]
    rw [or_eq_add (k := 8) (by omega) (by omega)]
    omega
  have e1 : (0xF0 : Nat) &&& 0x80 = 0x80 := by decide
  have e2 : (0xF0 : Nat) &&& 0xC0 = 0xC0 := by decide
  have e3 : (0xF0 : Nat) &&& 0xF0 = 0xF0 := by decide
  have e4 : (0xF0 : Nat) &&& 0xFC = 0xF0 := by decide
  simp [fromVarint, e1, e2, e3, e4, hmask24, and_255, hasm, int32ofNat]

/-- Decoding the bytes of the nonnegative encoder, with an arbitrary suffix:
the decoder consumes exactly the encoded bytes and returns the 32-bit signed
reinterpretation of the value. -/
theorem toVarintCore_spec (j : Nat) (h : j < 2 ^ 32) :
    ∃ l, toVarintCore j = some l ∧ l ≠ [] ∧
      ∀ rest, fromVarint (l ++ rest) = some (toInt32 (j : Int), l.length) := by
  by_cases h1 : j < 0x80
  · refine ⟨[j], by simp [toVarintCore, h1], by simp, fun rest => ?_⟩
    rw [List.cons_append, List.nil_append, fromVarint_b1 j h1 rest,
      toInt32_ofNat_small (by omega)]
    rfl
  · by_cases h2 : j < 0x4000
    · refine ⟨_, by rw [toVarintCore, if_neg h1, if_pos h2], by simp, fun rest => ?_⟩
      simp only [List.cons_append, List.nil_append]
      rw [fromVarint_b2 j h2 rest, toInt32_ofNat_small (by omega)]
      rfl
    · by_cases h3 : j < 0x200000
      · refine ⟨_, by rw [toVarintCore, if_neg h1, if_neg h2, if_pos h3], by simp,
          fun rest => ?_⟩
        simp only [List.cons_append, List.nil_append]
        rw [fromVarint_b3 j h3 rest, toInt32_ofNat_small (by omega)]
        rfl
      · by_cases h4 : j < 0x10000000
        · refine ⟨_, by rw [toVarintCore, if_neg h1, if_neg h2, if_neg h3, if_pos h4], by simp,
            fun rest => ?_⟩
          simp only [List.cons_append, List.nil_append]
          rw [fromVarint_b4 j h4 rest, toInt32_ofNat_small (by omega)]
          rfl
        · refine ⟨_, by rw [toVarintCore, if_neg h1, if_neg h2, if_neg h3, if_neg h4,
            if_pos (by omega : j < 0x100000000)], by simp, fun rest => ?_⟩
          simp only [List.cons_append, List.nil_append]
          rw [fromVarint_b5 j (by omega) rest]
          rfl

/-- Decoding the bytes of `toVarint(i)`, with an arbitrary suffix. -/
theorem toVarint_spec (i : Int) (h1 : -(2 ^ 31) ≤ i) (h2 : i < 2 ^ 32) :
    ∃ l, toVarint i = some l ∧ l ≠ [] ∧
      ∀ rest, fromVarint (l ++ rest) = some (toInt32 i, l.length) := by
  by_cases hneg : i < 0
  · have hjn : jsNot i = -i - 1 := jsNot_neg h1 hneg
    have ht32 : toInt32 i = i := toInt32_neg_small h1 hneg
    by_cases hsm : jsNot i ≤ 3
    · -- single byte 0xFC | j with j = -i-1 in [0,3]
      obtain ⟨j, hj⟩ : ∃ j : Nat, (-i - 1) = (j : Int) ∧ j < 4 := by
        refine ⟨(-i - 1).toNat, ?_, ?_⟩ <;> omega
      obtain ⟨hjc, hj4⟩ := hj
      have hmod : jsNot i % 256 = (j : Int) := by
        rw [hjn, hjc]
        exact Int.emod_eq_of_lt (by omega) (by omega)
      have henc : toVarint i = some [0xFC ||| j] := by
        rw [toVarint, if_pos hneg, if_pos hsm, hmod]
        simp
      refine ⟨_, henc, by simp, fun rest => ?_⟩
      have hc1 : ((0xFC : Nat) ||| j) &&& 0x80 = 0x80 := by
        rw [or_and_eval (k := 2) hj4 (by norm_num)]
        decide
      have hc2 : ((0xFC : Nat) ||| j) &&& 0xC0 = 0xC0 := by
        rw [or_and_eval (k := 2) hj4 (by norm_num)]
        decide
      have hc3 : ((0xFC : Nat) ||| j) &&& 0xF0 = 0xF0 := by
        rw [or_and_eval (k := 2) hj4 (by norm_num)]
        decide
      have hc4 : ((0xFC : Nat) ||| j) &&& 0xFC = 0xFC := by
        rw [or_and_eval (k := 2) hj4 (by norm_num)]
        decide
      have hval : ((0xFC : Nat) ||| j) &&& 0x03 = j := by
        rw [or_and_eval' (by decide), and_3, Nat.mod_eq_of_lt hj4]
      have hne : jsNot (j : Int) = i := by
        rw [jsNot_ofNat_small (by omega)]
        omega
      simp [fromVarint, hc1, hc2, hc3, hc4, hval, hne, ht32]
    · -- 0xF8 marker followed by the encoding of -i-1
      obtain ⟨j, hjc, hj4, hjtop⟩ : ∃ j : Nat, (-i - 1) = (j : Int) ∧ 4 ≤ j ∧ j < 2 ^ 31 := by
        refine ⟨(-i - 1).toNat, by omega, by omega, by omega⟩
      obtain ⟨l0, hcore, hl0ne, hdec⟩ := toVarintCore_spec j (by omega)
      have hjnat : (jsNot i).toNat = j := by omega
      have henc : toVarint i = some (0xF8 :: l0) := by
        rw [toVarint, if_pos hneg, if_neg hsm, hjnat, hcore]
        rfl
      refine ⟨_, henc, by simp, fun rest => ?_⟩
      have hrec : fromVarint (l0 ++ rest) = some ((j : Int), l0.length) := by
        rw [hdec rest, toInt32_ofNat_small hjtop]
      have hne : jsNot (j : Int) = i := by
        rw [jsNot_ofNat_small hjtop]
        omega
      have f1 : (0xF8 : Nat) &&& 0x80 = 0x80 := by decide
      have f2 : (0xF8 : Nat) &&& 0xC0 = 0xC0 := by decide
      have f3 : (0xF8 : Nat) &&& 0xF0 = 0xF0 := by decide
      have f4 : (0xF8 : Nat) &&& 0xFC = 0xF8 := by decide
      simp [fromVarint, f1, f2, f3, f4, hrec, hne, ht32, Nat.add_comm]
  · -- nonnegative
    obtain ⟨j, hjc, hj32⟩ : ∃ j : Nat, i = (j : Int) ∧ j < 2 ^ 32 := by
      refine ⟨i.toNat, by omega, by omega⟩
    obtain ⟨l0, hcore, hl0ne, hdec⟩ := toVarintCore_spec j hj32
    have henc : toVarint i = some l0 := by
      rw [toVarint, if_neg hneg, show i.toNat = j by omega, hcore]
    refine ⟨_, henc, hl0ne, fun rest => ?_⟩
    rw [hdec rest, hjc]

/-- Claim C2 (amended): for `-(2^31) ≤ i < 2^32`, `fromVarint (toVarint i)`
returns the pair `(toInt32 i, n)` with `n` the byte length of `toVarint i`;
the decoded value equals `i` itself exactly on `[-(2^31), 2^31)` (the source
reassembles the five-byte case with signed 32-bit arithmetic). -/
theorem c2_varint_roundtrip_amended (i : Int) (h1 : -(2 ^ 31) ≤ i) (h2 : i < 2 ^ 32) :
    ∃ l, toVarint i = some l ∧ fromVarint l = some (toInt32 i, l.length) ∧
      (i < 2 ^ 31 → fromVarint l = some (i, l.length)) := by
  obtain ⟨l, henc, -, hdec⟩ := toVarint_spec i h1 h2
  have hd := hdec []
  rw [List.append_nil] at hd
  refine ⟨l, henc, hd, fun hlt => ?_⟩
  rw [hd]
  by_cases hneg : i < 0
  · rw [toInt32_neg_small h1 hneg]
  · have : ∃ j : Nat, i = (j : Int) ∧ j < 2 ^ 31 := ⟨i.toNat, by omega, by omega⟩
    obtain ⟨j, rfl, hj⟩ := this
    rw [toInt32_ofNat_small hj]

/-- Claim C2 (counterexample): at `i = 2^31` the round trip returns
`i - 2^32`, not `i`: the five-byte decode is signed. -/
theorem c2_counterexample :
    toVarint 2147483648 = some [0xF0, 0x80, 0x00, 0x00, 0x00] ∧
    fromVarint [0xF0, 0x80, 0x00, 0x00, 0x00] = some (-2147483648, 5) ∧
    ((-2147483648 : Int), 5) ≠ ((2147483648 : Int), 5) := by
  refine ⟨by decide, by decide, by decide⟩

/-- Claim C2 (witness): the amended round trip at `i = 5`. -/
theorem c2_witness :
    (-(2 ^ 31) : Int) ≤ 5 ∧ (5 : Int) < 2 ^ 32 ∧
      ∃ l, toVarint 5 = some l ∧ fromVarint l = some (toInt32 5, l.length) ∧
        ((5 : Int) < 2 ^ 31 → fromVarint l = some (5, l.length)) :=
  ⟨by norm_num, by norm_num, c2_varint_roundtrip_amended 5 (by norm_num) (by norm_num)⟩

/-- Claim C9 (amended): on any input whose first byte has the 64-bit prefix
`0xF4` (i.e. `b0 & 0xFC == 0xF4`), `fromVarint` fails by returning the
source's `null`; this is the same `null` every other `fromVarint` failure
returns - the decoder has no distinct `Unsupported64Bit` error value. -/
theorem c9_unsupported64_amended (v : Nat) (rest : List Nat) (h : v &&& 0xFC = 0xF4) :
    fromVarint (v :: rest) = none ∧ fromVarint (v :: rest) = fromVarint [] := by
  have hc1 : v &&& 0x80 = 0x80 := by
    calc v &&& 0x80 = v &&& (0xFC &&& 0x80) := by rw [show (0xFC &&& 0x80 : Nat) = 0x80 from by decide]
    _ = (v &&& 0xFC) &&& 0x80 := by rw [Nat.and_assoc]
    _ = 0xF4 &&& 0x80 := by rw [h]
    _ = 0x80 := by decide
  have hc2 : v &&& 0xC0 = 0xC0 := by
    calc v &&& 0xC0 = v &&& (0xFC &&& 0xC0) := by rw [show (0xFC &&& 0xC0 : Nat) = 0xC0 from by decide]
    _ = (v &&& 0xFC) &&& 0xC0 := by rw [Nat.and_assoc]
    _ = 0xF4 &&& 0xC0 := by rw [h]
    _ = 0xC0 := by decide
  have hc3 : v &&& 0xF0 = 0xF0 := by
    calc v &&& 0xF0 = v &&& (0xFC &&& 0xF0) := by rw [show (0xFC &&& 0xF0 : Nat) = 0xF0 from by decide]
    _ = (v &&& 0xFC) &&& 0xF0 := by rw [Nat.and_assoc]
    _ = 0xF4 &&& 0xF0 := by rw [h]
    _ = 0xF0 := by decide
  refine ⟨?_, ?_⟩ <;> simp [fromVarint, hc1, hc2, hc3, h]

/-- Claim C9 (counterexample): the `0xF4` prefix does not produce a distinct
error: the decoder returns plain `null`, the very same failure value it
returns for e.g. an empty input. -/
theorem c9_counterexample :
    fromVarint [0xF4, 0x01, 0x02, 0x03, 0x04, 0x05] = none ∧
    fromVarint [] = none ∧
    fromVarint [0xF4, 0x01, 0x02, 0x03, 0x04, 0x05] = fromVarint [] := by
  refine ⟨by decide, by decide, by decide⟩

/-- Claim C9 (witness): the amended statement at the concrete byte `0xF4`. -/
theorem c9_witness :
    (0xF4 : Nat) &&& 0xFC = 0xF4 ∧
      (fromVarint [0xF4, 0, 0, 0, 0, 0] = none ∧
        fromVarint [0xF4, 0, 0, 0, 0, 0] = fromVarint []) :=
  ⟨by decide, c9_unsupported64_amended 0xF4 [0, 0, 0, 0, 0] (by decide)⟩

/-! ## Voice packet codec (`src/lib/voice.js`)

The encoder stream is created with a destination tag and the decoder with an
origin tag; a server-to-client packet is produced by `Encoder('client')` and
consumed by `Decoder('server')`.  Both are parameterised here by the single
boolean `serverOrigin` - the packet direction of the spec - which is
`dest == 'client'` on the encoder and `orig == 'server'` on the decoder.

The decoded codec is one of the strings `'Opus' / 'CELT_Alpha' / 'Speex' /
'CELT_Beta'` in the source; both sides are modelled by the enum `VCodec`
whose constructor names are exactly those strings. -/

inductive VCodec where
  | Opus
  | CELT_Alpha
  | CELT_Beta
  | Speex
deriving DecidableEq, Repr

/-- Target names produced by the decoder:
`['normal', 'shout', 'whisper'][target] || 'loopback'`. -/
inductive VTarget where
  | normal
  | shout
  | whisper
  | loopback
deriving DecidableEq, Repr

/-- The `VoiceData` object fed to the encoder.  `position` floats are
modelled by their 4-byte big-endian wire images.  The source field `end`
is a Lean keyword and is spelled `end_` here. -/
structure VoiceData where
  source : Int
  mode : Nat
  codec : VCodec
  seqNum : Int
  end_ : Bool
  frames : List (List Nat)
  position : Option (List Nat × List Nat × List Nat)
deriving DecidableEq, Repr

/-- An encoder input chunk: a ping object (has a `timestamp` field) or a
voice packet object. -/
inductive VChunk where
  | ping (timestamp : Int)
  | voice (v : VoiceData)
deriving DecidableEq, Repr

/-- `voiceData[voiceData.length - 2][0] &= 0x7F` applied to one element. -/
def clearCont : List Nat → List Nat
  | [] => []
  | x :: t => (x &&& 0x7F) :: t

/-- The CELT/Speex frame payload built by the encoder: per-frame pieces
`[len | 0x80] ++ frame`, the `[0x00]` terminator plus empty frame when the
end bit is set, and the continuation bit cleared on the second-to-last
piece. -/
def celtData (frames : List (List Nat)) (e : Bool) : List Nat :=
  let pieces := frames.flatMap (fun f => [[f.length ||| 0x80], f])
  let pieces := if e then pieces ++ [[0], []] else pieces
  let i := pieces.length - 2
  (pieces.set i (clearCont (pieces.getD i []))).flatten

/-- `Encoder.prototype._transform` in `src/lib/voice.js`; `.error` models
`callback(err)` as well as the crash on `toVarint(x).value` when `toVarint`
returned a bare `Buffer` or threw.  The source's `Unknown codec` branch is
unreachable here because `VCodec` enumerates exactly the four codec
strings. -/
def voiceEncode (serverOrigin : Bool) (ch : VChunk) : Except String (List Nat) :=
  match ch with
  | .ping ts =>
    match toVarintObjValue ts with
    | none => .error ("crash")
    | some tv => .ok (0x20 :: tv)
  | .voice v =>
    let codecData : Except String (Nat × List Nat) :=
      match v.codec with
      | .Opus =>
        if v.frames.length > 1 then .error ("Opus only supports a single frame per packet")
        else
          let endBit : Nat := if v.end_ then 0x2000 else 0
          if v.frames.length = 0 then
            match toVarintObjValue (endBit : Int) with
            | none => .error ("crash")
            | some tv => .ok (4, tv)
          else
            let f := v.frames.getD 0 []
            match toVarintObjValue ((f.length ||| endBit : Nat) : Int) with
            | none => .error ("crash")
            | some tv => .ok (4, tv ++ f)
      | c =>
        let codecId : Nat := match c with
          | .CELT_Alpha => 0
          | .Speex => 2
          | .CELT_Beta => 3
          | .Opus => 4
        if v.frames.length = 0 ∧ v.end_ = false then
          .error ("No frames given but end bit is not set")
        else if v.frames.any (fun f => f.length > 127) then
          .error ("Frame size is greater than 127 bytes")
        else .ok (codecId, celtData v.frames v.end_)
    match codecData with
    | .error e => .error e
    | .ok (codecId, vd) =>
      let srcB : Except String (List Nat) :=
        if serverOrigin then
          match toVarintObjValue v.source with
          | none => .error ("crash")
          | some l => .ok l
        else .ok []
      match srcB with
      | .error e => .error e
      | .ok sb =>
        match toVarintObjValue v.seqNum with
        | none => .error ("crash")
        | some qb =>
          let posB : List Nat := match v.position with
            | none => []
            | some (x, y, z) => x ++ y ++ z
          .ok (((codecId <<< 5) ||| v.mode) :: (sb ++ qb ++ vd ++ posB))

/-- The decoded packet object: fields are `Option`s because the source
populates a fresh `{}` object field by field. -/
structure DecodedVoice where
  timestamp : Option Int := none
  target : Option VTarget := none
  source : Option Int := none
  seqNum : Option Int := none
  end_ : Option Bool := none
  frames : Option (List (List Nat)) := none
  codec : Option VCodec := none
  position : Option (List Nat × List Nat × List Nat) := none
deriving DecidableEq, Repr

/-- Observable outcome of `Decoder.prototype._transform`:
`rejected r` is the `reject(r)` path - a `debug` diagnostic is emitted and
`callback()` is invoked with neither error nor packet;
`errored` is `callback(e)` from the catch-all - an error is surfaced;
`ok p` is `callback(null, packet)`. -/
inductive VOut where
  | rejected (reason : String)
  | errored
  | ok (p : DecodedVoice)
deriving DecidableEq, Repr

/-- Does the outcome emit the `debug` diagnostic event? -/
def VOut.emitsDebug : VOut → Bool
  | .rejected _ => true
  | _ => false

/-- The decoded packet delivered to the sink, if any. -/
def VOut.packet : VOut → Option DecodedVoice
  | .ok p => some p
  | _ => none

/-- Does the outcome surface an error to the sink? -/
def VOut.surfacesError : VOut → Bool
  | .errored => true
  | _ => false

/-- The CELT/Speex continuation-bit frame loop of the decoder, with explicit
fuel for structural recursion.  Every iteration advances the offset by at
least one byte, so `fuel ≥ chunk.length - o` is an invariant of every call;
when the fuel hits `0` the invariant forces `chunk.length ≤ o`, where the
source rejects with `missing frame header` - which is exactly the fuel-0
result. -/
def celtLoopF (chunk : List Nat) : Nat → Nat → List (List Nat) →
    Except String (List (List Nat) × Bool × Nat)
  | 0, _, _ => .error ("missing frame header")
  | fuel + 1, o, acc =>
    if chunk.length < o + 1 then .error ("missing frame header")
    else
      let header := chunk.getD o 0
      if header = 0 then .ok (acc, true, o + 1)
      else
        let more := header &&& 0x80 > 0
        let flen := header &&& 0x7F
        if chunk.length < o + 1 + flen then .error ("not enough voice data")
        else
          let fr := (chunk.drop (o + 1)).take flen
          if more then celtLoopF chunk fuel (o + 1 + flen) (acc ++ [fr])
          else .ok (acc ++ [fr], false, o + 1 + flen)

/-- The CELT/Speex continuation-bit frame loop of the decoder. -/
def celtLoop (chunk : List Nat) (o : Nat) (acc : List (List Nat)) :
    Except String (List (List Nat) × Bool × Nat) :=
  celtLoopF chunk (chunk.length - o) o acc

/-- Positional data: read three big-endian floats when strictly more than 12
bytes remain. -/
def posRead (chunk : List Nat) (o : Nat) : Option (List Nat × List Nat × List Nat) :=
  if chunk.length > o + 12 then
    some ((chunk.drop o).take 4, (chunk.drop (o + 4)).take 4, (chunk.drop (o + 8)).take 4)
  else none

/-- `Decoder.prototype._transform` in `src/lib/voice.js`.

Note the source's line 216: `codecId == 0 || codecIf == 2 || codecId == 3`.
`codecIf` is an undefined identifier, so for every codec id other than 1, 4
and 0 the condition's evaluation throws a `ReferenceError`, which the
enclosing `try`/`catch` turns into `callback(e)` - modelled by `.errored`.
Only codec id 0 (`CELT_Alpha`) reaches the continuation-bit loop, and the
`unknown_codec` / `reject('unknown codec')` branch is dead code. -/
def voiceDecode (serverOrigin : Bool) (chunk : List Nat) : VOut :=
  if chunk.length = 0 then .rejected ("empty")
  else
    let codecId := chunk.getD 0 0 >>> 5
    if codecId = 1 then
      match fromVarint (chunk.drop 1) with
      | none => .rejected ("invalid timestamp")
      | some (v, _) => .ok { timestamp := some v }
    else
      let target := chunk.getD 0 0 &&& 0x1f
      let targetV : VTarget :=
        if target = 0 then .normal
        else if target = 1 then .shout
        else if target = 2 then .whisper
        else .loopback
      let srcRes : Except String (Option Int × Nat) :=
        if serverOrigin then
          match fromVarint (chunk.drop 1) with
          | none => .error ("invalid source")
          | some (sv, sl) => .ok (some sv, 1 + sl)
        else .ok (none, 1)
      match srcRes with
      | .error r => .rejected r
      | .ok (srcv, o1) =>
        match fromVarint (chunk.drop o1) with
        | none => .rejected ("invalid sequence number")
        | some (qv, ql) =>
          let o2 := o1 + ql
          if codecId = 4 then
            match fromVarint (chunk.drop o2) with
            | none => .rejected ("invalid voice length")
            | some (vl, vll) =>
              let endv := decide (jsAnd vl 0x2000 > 0)
              let size := jsAnd vl 0x1fff
              let o3 := o2 + vll
              if chunk.length < o3 + size then .rejected ("not enough voice data")
              else
                let voice := (chunk.drop o3).take size
                let o4 := o3 + size
                let fr : List (List Nat) := if voice.length ≠ 0 then [voice] else []
                .ok { target := some targetV, source := srcv, seqNum := some qv,
                      end_ := some endv, frames := some fr, codec := some VCodec.Opus,
                      position := posRead chunk o4 }
          else if codecId = 0 then
            match celtLoop chunk o2 [] with
            | .error r => .rejected r
            | .ok (fr, ed, o3) =>
              .ok { target := some targetV, source := srcv, seqNum := some qv,
                    end_ := some ed, frames := some fr, codec := some VCodec.CELT_Alpha,
                    position := posRead chunk o3 }
          else .errored

example :
    voiceEncode false (.voice (VoiceData.mk 0 0 .Opus 5 false [[0xAA, 0xBB]] none)) =
    .ok [0x80, 0x05, 0x02, 0xAA, 0xBB] := by decide

example :
    voiceDecode false [0x80, 0x05, 0x02, 0xAA, 0xBB] =
    .ok { target := some .normal, seqNum := some 5, end_ := some false,
          frames := some [[0xAA, 0xBB]], codec := some .Opus } := by decide

example : voiceEncode false (.ping 1234567) = .ok [0x20, 0xD2, 0xD6, 0x87] := by decide

example :
    voiceDecode false [0x20, 0xD2, 0xD6, 0x87] = .ok { timestamp := some 1234567 } := by decide

example :
    voiceEncode false (.voice (VoiceData.mk 0 0 .CELT_Alpha 0 true [[0x11], [0x22]] none)) =
    .ok [0x00, 0x00, 0x81, 0x11, 0x81, 0x22, 0x00] := by decide

example :
    voiceDecode false [0x00, 0x00, 0x81, 0x11, 0x81, 0x22, 0x00] =
    .ok { target := some .normal, seqNum := some 0, end_ := some true,
          frames := some [[0x11], [0x22]], codec := some .CELT_Alpha } := by decide

example : voiceDecode false [0x40, 0x00, 0x00] = .errored := by decide

example : voiceDecode false [0x60, 0x00, 0x00] = .errored := by decide

/-- Claim C6 (code bug evaluation): the decoder handles codec ids 0, 2, 3 by
`codecId == 0 || codecIf == 2 || codecId == 3` where `codecIf` is undefined.
A Speex packet (id 2, header `0x40`) and a CELT_Beta packet (id 3, header
`0x60`) therefore throw a `ReferenceError` that is surfaced as a stream
error instead of being decoded; only CELT_Alpha (id 0) is decoded by the
continuation-bit loop as the claim describes. -/
theorem c6_celt_speex_codecIf_bug :
    voiceDecode false [0x40, 0x00, 0x00] = .errored ∧
    voiceDecode false [0x60, 0x00, 0x00] = .errored ∧
    voiceDecode false [0x00, 0x00, 0x81, 0x11, 0x81, 0x22, 0x00] =
      .ok { target := some .normal, seqNum := some 0, end_ := some true,
            frames := some [[0x11], [0x22]], codec := some .CELT_Alpha } := by
  refine ⟨by decide, by decide, by decide⟩

/-- Claim C7 (code bug evaluation): an unknown codec id (here 5, header byte
`0xA0`) hits the undefined `codecIf` before the `unknown codec` reject path
can run: the decoder surfaces a `ReferenceError` (`callback(e)`) and emits
no diagnostic, contrary to the claim.  Every other malformed-packet class of
the claim does behave as claimed: diagnostic emitted, packet dropped, no
error surfaced. -/
theorem c7_decoder_tolerance_bug :
    (voiceDecode false [0xA0, 0x00]).surfacesError = true ∧
    (voiceDecode false [0xA0, 0x00]).emitsDebug = false ∧
    (voiceDecode false [0xA0, 0x00]).packet = none ∧
    voiceDecode false [] = .rejected ("empty") ∧
    voiceDecode false [0x20] = .rejected ("invalid timestamp") ∧
    voiceDecode true [0x00] = .rejected ("invalid source") ∧
    voiceDecode false [0x00] = .rejected ("invalid sequence number") ∧
    voiceDecode false [0x80, 0x00] = .rejected ("invalid voice length") ∧
    voiceDecode false [0x80, 0x00, 0x05, 0x01] = .rejected ("not enough voice data") ∧
    voiceDecode false [0x00, 0x00] = .rejected ("missing frame header") := by
  refine ⟨by decide, by decide, by decide, by decide, by decide, by decide, by decide,
    by decide, by decide, by decide⟩

/-- Claim C3 (counterexample): a valid server-to-client Opus packet carrying
a position is encoded with exactly 12 trailing position bytes, but the
decoder reads a position only when strictly more than 12 bytes remain, so
the decoded packet has no position: the round trip loses the field. -/
theorem c3_position_dropped :
    voiceEncode true (.voice (VoiceData.mk 7 1 .Opus 300 true [[0xCC]]
        (some ([0x3F, 0x80, 0x00, 0x00], [0x40, 0x00, 0x00, 0x00],
               [0xBF, 0xC0, 0x00, 0x00])))) =
      .ok [0x81, 0x07, 0x81, 0x2C, 0xA0, 0x01, 0xCC,
           0x3F, 0x80, 0x00, 0x00, 0x40, 0x00, 0x00, 0x00, 0xBF, 0xC0, 0x00, 0x00] ∧
    voiceDecode true [0x81, 0x07, 0x81, 0x2C, 0xA0, 0x01, 0xCC,
           0x3F, 0x80, 0x00, 0x00, 0x40, 0x00, 0x00, 0x00, 0xBF, 0xC0, 0x00, 0x00] =
      .ok { target := some .shout, source := some 7, seqNum := some 300, end_ := some true,
            frames := some [[0xCC]], codec := some .Opus, position := none } ∧
    some ([0x3F, 0x80, 0x00, 0x00], [0x40, 0x00, 0x00, 0x00], [0xBF, 0xC0, 0x00, 0x00]) ≠
      (none : Option (List Nat × List Nat × List Nat)) := by
  refine ⟨by decide, by decide, by decide⟩

/-! ## Voice round trip (claim C3, amended) -/

/-- `['normal', 'shout', 'whisper'][mode] || 'loopback'`. -/
def targetOf (mode : Nat) : VTarget :=
  if mode = 0 then .normal
  else if mode = 1 then .shout
  else if mode = 2 then .whisper
  else .loopback

/-- Validity of a voice packet for the amended round-trip claim:
byte-valued frames, in-range varint fields, no position (the decoder's
strict `> 12` check drops an encoded position), codec Opus or CELT_Alpha
(the `codecIf` ReferenceError kills Speex and CELT_Beta decoding), a
nonempty Opus frame (an empty one decodes to zero frames) and, for
CELT_Alpha without end bit, a nonempty last frame (an empty one would
encode as the `0x00` terminator). -/
def ValidVoice (d : Bool) (v : VoiceData) : Prop :=
  v.mode < 32 ∧
  0 ≤ v.seqNum ∧ v.seqNum < 2 ^ 31 ∧
  (d = true → 0 ≤ v.source ∧ v.source < 2 ^ 31) ∧
  (∀ f ∈ v.frames, ∀ x ∈ f, x < 256) ∧
  v.position = none ∧
  ((v.codec = .Opus ∧ (v.frames = [] ∨ (v.frames.length = 1 ∧
      0 < (v.frames.getD 0 []).length ∧ (v.frames.getD 0 []).length ≤ 0x1FFF))) ∨
   (v.codec = .CELT_Alpha ∧ (∀ f ∈ v.frames, f.length ≤ 127) ∧
      (v.end_ = false → v.frames ≠ [] ∧ 0 < (v.frames.getLast?.getD []).length)))

instance (d : Bool) (v : VoiceData) : Decidable (ValidVoice d v) := by
  unfold ValidVoice
  infer_instance

/-- The packet object the decoder produces for an encoded valid packet:
the mode is normalised into the target name, the source appears only on
server-originated packets, and the position is absent. -/
def expectedVoice (d : Bool) (v : VoiceData) : DecodedVoice :=
  { target := some (targetOf v.mode),
    source := if d then some v.source else none,
    seqNum := some v.seqNum,
    end_ := some v.end_,
    frames := some v.frames,
    codec := some v.codec,
    position := none }

/-- Closed form of the CELT/Speex frame payload produced by the encoder. -/
def celtWire : List (List Nat) → Bool → List Nat
  | [], true => [0]
  | [], false => []
  | [f], false => f.length :: f
  | f :: rest, e => ((f.length ||| 0x80) :: f) ++ celtWire rest e

theorem celtWire_cons (f : List Nat) (rest : List (List Nat)) (e : Bool)
    (h : rest ≠ [] ∨ e = true) :
    celtWire (f :: rest) e = ((f.length ||| 0x80) :: f) ++ celtWire rest e := by
  match rest, e with
  | [], true => rfl
  | [], false => simp at h
  | g :: gs, _ => rfl

theorem or128_and127 {l : Nat} (h : l ≤ 127) : (l ||| 0x80) &&& 0x7F = l := by
  rw [Nat.or_comm, or_and_eval' (by decide), and_127, Nat.mod_eq_of_lt (by omega)]

theorem or128_and128 {l : Nat} (h : l ≤ 127) : (l ||| 0x80) &&& 0x80 = 0x80 := by
  rw [Nat.or_comm, or_and_eval (k := 7) (by omega) (by norm_num)]
  decide

theorem or128_ne_zero {l : Nat} (h : l ≤ 127) : (l ||| 0x80) ≠ 0 := by
  rw [Nat.or_comm, or_eq_add (k := 7) (by norm_num) (by omega)]
  omega

theorem flatten_set_tail (A P : List (List Nat)) (h2 : 2 ≤ P.length) :
    ((A ++ P).set ((A ++ P).length - 2)
        (clearCont ((A ++ P).getD ((A ++ P).length - 2) []))).flatten
      = A.flatten ++ (P.set (P.length - 2) (clearCont (P.getD (P.length - 2) []))).flatten := by
  have hi : (A ++ P).length - 2 = A.length + (P.length - 2) := by
    simp only [List.length_append]
    omega
  rw [hi]
  have hg : (A ++ P).getD (A.length + (P.length - 2)) [] = P.getD (P.length - 2) [] := by
    simp only [List.getD_eq_getElem?_getD]
    have hx := @List.getElem?_append_right _ A P (A.length + (P.length - 2)) (by omega)
    rw [hx]
    have hy : A.length + (P.length - 2) - A.length = P.length - 2 := by omega
    rw [hy]
  have hset := List.set_append_right (s := A) (t := P) (A.length + (P.length - 2))
    (clearCont (P.getD (P.length - 2) [])) (by omega)
  rw [hg, hset]
  have he : A.length + (P.length - 2) - A.length = P.length - 2 := by omega
  rw [he, List.flatten_append]

theorem celtData_cons2 (f : List Nat) (g : List Nat) (gs : List (List Nat)) (e : Bool) :
    celtData (f :: g :: gs) e = ((f.length ||| 0x80) :: f) ++ celtData (g :: gs) e := by
  have h2 : 2 ≤ (if e then (((g :: gs).flatMap fun x => [[x.length ||| 0x80], x]) ++ [[0], []])
      else ((g :: gs).flatMap fun x => [[x.length ||| 0x80], x])).length := by
    cases e <;> simp [List.flatMap_cons]
  have key := flatten_set_tail [[f.length ||| 0x80], f]
    (if e then (((g :: gs).flatMap fun x => [[x.length ||| 0x80], x]) ++ [[0], []])
      else ((g :: gs).flatMap fun x => [[x.length ||| 0x80], x])) h2
  cases e
  · simpa [celtData, List.flatMap_cons] using key
  · simpa [celtData, List.flatMap_cons, List.append_assoc] using key

theorem celtData_eq (frames : List (List Nat)) (e : Bool)
    (hf : ∀ f ∈ frames, f.length ≤ 127) (hne : frames = [] → e = true) :
    celtData frames e = celtWire frames e := by
  induction frames with
  | nil =>
    rw [hne rfl]
    decide
  | cons f rest ih =>
    match rest with
    | [] =>
      have hl : f.length ≤ 127 := hf f (by simp)
      cases e with
      | false =>
        show celtData [f] false = f.length :: f
        simp [celtData, clearCont, List.flatMap_cons, or128_and127 hl]
      | true =>
        show celtData [f] true = ((f.length ||| 0x80) :: f) ++ [0]
        simp [celtData, clearCont, List.flatMap_cons]
    | g :: gs =>
      have ihe : celtData (g :: gs) e = celtWire (g :: gs) e :=
        ih (fun x hx => hf x (List.mem_cons_of_mem f hx)) (by simp)
      rw [celtData_cons2, ihe, celtWire_cons f (g :: gs) e (Or.inl (by simp))]

example : celtData [[0x11], [0x22]] true = celtWire [[0x11], [0x22]] true := by decide
example : celtData [[0x11], [0x22]] false = celtWire [[0x11], [0x22]] false := by decide
example : celtData [] true = celtWire [] true := by decide
example : celtData [[0x11, 0x22]] false = celtWire [[0x11, 0x22]] false := by decide

theorem getD_drop (l : List Nat) (o j : Nat) : (l.drop o).getD j 0 = l.getD (o + j) 0 := by
  simp [List.getD_eq_getElem?_getD, List.getElem?_drop]

theorem celtWire_ne_nil (fs : List (List Nat)) (e : Bool) (hne : fs = [] → e = true) :
    celtWire fs e ≠ [] := by
  match fs, e with
  | [], true => simp [celtWire]
  | [], false => simp at hne
  | [f], false => simp [celtWire]
  | [f], true => rw [celtWire_cons f [] true (Or.inr rfl)]; simp
  | f :: g :: gs, e => rw [celtWire_cons f (g :: gs) e (Or.inl (by simp))]; simp

/-- The cons step of `celtLoop_run`: the first encoded frame carries a set
continuation bit (either more frames follow or the `0x00` terminator does),
so the loop reads it and recurses. -/
theorem celtLoop_run_cons (fuel : Nat)
    (ih : ∀ (chunk : List Nat) (o : Nat) (acc fs : List (List Nat)) (e : Bool),
      chunk.drop o = celtWire fs e → chunk.length - o ≤ fuel →
      (∀ f ∈ fs, f.length ≤ 127) → (fs = [] → e = true) →
      (e = false → fs ≠ [] ∧ 0 < (fs.getLast?.getD []).length) →
      celtLoopF chunk fuel o acc = .ok (acc ++ fs, e, o + (celtWire fs e).length))
    (chunk : List Nat) (o : Nat) (acc : List (List Nat)) (f : List Nat)
    (rest : List (List Nat)) (e : Bool) (hOr : rest ≠ [] ∨ e = true)
    (hdrop : chunk.drop o = celtWire (f :: rest) e)
    (hfuel : chunk.length - o ≤ fuel + 1)
    (hf : ∀ x ∈ f :: rest, x.length ≤ 127)
    (hlast : e = false → f :: rest ≠ [] ∧ 0 < ((f :: rest).getLast?.getD []).length) :
    celtLoopF chunk (fuel + 1) o acc = .ok (acc ++ (f :: rest), e,
      o + (celtWire (f :: rest) e).length) := by
  have hL : f.length ≤ 127 := hf f (by simp)
  rw [celtWire_cons f rest e hOr] at hdrop ⊢
  have hlen : chunk.length - o = f.length + (celtWire rest e).length + 1 := by
    have := congrArg List.length hdrop
    simp only [List.length_drop, List.cons_append, List.length_cons, List.length_append] at this
    omega
  have hhead : chunk.getD o 0 = f.length ||| 0x80 := by
    have := congrArg (fun l => l.getD 0 0) hdrop
    simpa [getD_drop] using this
  have htail : chunk.drop (o + 1) = f ++ celtWire rest e := by
    have h1 : chunk.drop (o + 1) = (chunk.drop o).drop 1 := by
      rw [List.drop_drop, Nat.add_comm]
    rw [h1, hdrop]
    simp
  simp only [celtLoopF]
  rw [if_neg (show ¬(chunk.length < o + 1) by omega), hhead,
    if_neg (or128_ne_zero hL), or128_and127 hL,
    if_neg (show ¬(chunk.length < o + 1 + f.length) by omega)]
  have hmore : (f.length ||| 0x80) &&& 0x80 > 0 := by
    rw [or128_and128 hL]
    omega
  have hfr : (chunk.drop (o + 1)).take f.length = f := by
    rw [htail, List.take_left]
  rw [hfr, if_pos hmore]
  have hdrop2 : chunk.drop (o + 1 + f.length) = celtWire rest e := by
    have h1 : chunk.drop (o + 1 + f.length) = (chunk.drop (o + 1)).drop f.length := by
      rw [List.drop_drop]
    rw [h1, htail, List.drop_left]
  have hne2 : rest = [] → e = true := by
    intro h
    rcases hOr with h1 | h1
    · exact absurd h h1
    · exact h1
  have hlast2 : e = false → rest ≠ [] ∧ 0 < (rest.getLast?.getD []).length := by
    intro he
    have h1 : rest ≠ [] := by
      rcases hOr with h1 | h1
      · exact h1
      · rw [h1] at he
        cases he
    refine ⟨h1, ?_⟩
    have h2 := (hlast he).2
    obtain ⟨r, rs, rfl⟩ : ∃ r rs, rest = r :: rs := by
      cases rest with
      | nil => exact absurd rfl h1
      | cons r rs => exact ⟨r, rs, rfl⟩
    rwa [List.getLast?_cons_cons] at h2
  have hrec := ih chunk (o + 1 + f.length) (acc ++ [f]) rest e hdrop2 (by omega)
    (fun x hx => hf x (List.mem_cons_of_mem f hx)) hne2 hlast2
  rw [hrec]
  have hl1 : (acc ++ [f]) ++ rest = acc ++ (f :: rest) := by simp
  have hl2 : o + 1 + f.length + (celtWire rest e).length =
      o + (((f.length ||| 0x80) :: f) ++ celtWire rest e).length := by
    simp only [List.cons_append, List.length_cons, List.length_append]
    omega
  rw [hl1, hl2]

/-- Running the decoder's continuation-bit loop over the encoder's CELT
frame payload (which ends the chunk) recovers exactly the encoded frames and
end flag and consumes the whole payload. -/
theorem celtLoop_run (fuel : Nat) :
    ∀ (chunk : List Nat) (o : Nat) (acc fs : List (List Nat)) (e : Bool),
    chunk.drop o = celtWire fs e →
    chunk.length - o ≤ fuel →
    (∀ f ∈ fs, f.length ≤ 127) →
    (fs = [] → e = true) →
    (e = false → fs ≠ [] ∧ 0 < (fs.getLast?.getD []).length) →
    celtLoopF chunk fuel o acc = .ok (acc ++ fs, e, o + (celtWire fs e).length) := by
  induction fuel with
  | zero =>
    intro chunk o acc fs e hdrop hfuel hf hne hlast
    exfalso
    have hpos : 0 < (celtWire fs e).length :=
      List.length_pos.mpr (celtWire_ne_nil fs e hne)
    have hlen : chunk.length - o = (celtWire fs e).length := by
      rw [← hdrop, List.length_drop]
    omega
  | succ fuel ih =>
    intro chunk o acc fs e hdrop hfuel hf hne hlast
    match fs, e with
    | [], true =>
      have hlen : chunk.length - o = 1 := by
        have := congrArg List.length hdrop
        simpa [celtWire] using this
      have hhead : chunk.getD o 0 = 0 := by
        have := congrArg (fun l => l.getD 0 0) hdrop
        simpa [celtWire, getD_drop] using this
      simp only [celtLoopF]
      rw [if_neg (by omega), if_pos hhead]
      simp [celtWire]
    | [], false => simp at hne
    | [f], false =>
      have hL : f.length ≤ 127 := hf f (by simp)
      have hLpos : 0 < f.length := by
        have := (hlast rfl).2
        simpa using this
      have hlen : chunk.length - o = f.length + 1 := by
        have := congrArg List.length hdrop
        simpa [celtWire] using this
      have hhead : chunk.getD o 0 = f.length := by
        have := congrArg (fun l => l.getD 0 0) hdrop
        simpa [celtWire, getD_drop] using this
      have htail : chunk.drop (o + 1) = f := by
        have h1 : chunk.drop (o + 1) = (chunk.drop o).drop 1 := by
          rw [List.drop_drop, Nat.add_comm]
        rw [h1, hdrop]
        simp [celtWire]
      simp only [celtLoopF]
      rw [if_neg (by omega), hhead, if_neg (by omega)]
      have hmore : ¬(f.length &&& 0x80 > 0) := by
        rw [and_eq_zero (k := 7) (by omega) (by norm_num)]
        omega
      have hflen : f.length &&& 0x7F = f.length := by
        rw [and_127, Nat.mod_eq_of_lt (by omega)]
      rw [hflen, if_neg (by omega), if_neg hmore]
      rw [htail, List.take_length]
      have hfin : o + 1 + f.length = o + (celtWire [f] false).length := by
        simp only [celtWire, List.length_cons]
        omega
      rw [hfin]
    | [f], true =>
      exact celtLoop_run_cons fuel ih chunk o acc f [] true (Or.inr rfl) hdrop hfuel hf hlast
    | f :: g :: gs, e =>
      exact celtLoop_run_cons fuel ih chunk o acc f (g :: gs) e (Or.inl (by simp)) hdrop hfuel
        hf hlast

theorem varintFieldI (i : Int) (h0 : 0 ≤ i) (h31 : i < 2 ^ 31) :
    ∃ l, toVarintObjValue i = some l ∧ l ≠ [] ∧
      ∀ rest, fromVarint (l ++ rest) = some (i, l.length) := by
  have hobj : toVarintObjValue i = toVarint i := by
    unfold toVarintObjValue
    rw [if_neg]
    rintro ⟨hx, -⟩
    omega
  have hlow : -(2 ^ 31 : Int) ≤ i := le_trans (by norm_num) h0
  have hhigh : i < 2 ^ 32 := lt_trans h31 (by norm_num)
  obtain ⟨l, he, hne, hd⟩ := toVarint_spec i hlow hhigh
  have ht : toInt32 i = i := by
    obtain ⟨j, rfl⟩ : ∃ j : Nat, i = (j : Int) := ⟨i.toNat, by omega⟩
    exact toInt32_ofNat_small (by exact_mod_cast h31)
  exact ⟨l, by rw [hobj, he], hne, fun rest => by rw [hd rest, ht]⟩

theorem jsAnd_ofNat {n : Nat} (h : n < 2 ^ 32) (m : Nat) : jsAnd (n : Int) m = n &&& m := by
  unfold jsAnd
  have h1 : ((n : Int) % 2 ^ 32) = (n : Int) :=
    Int.emod_eq_of_lt (Int.ofNat_nonneg n) (by exact_mod_cast h)
  rw [h1]
  simp

theorem posRead_none (chunk : List Nat) (o : Nat) (h : chunk.length ≤ o + 12) :
    posRead chunk o = none := by
  unfold posRead
  rw [if_neg]
  omega

theorem opus_header_shr {m : Nat} (h : m < 32) : ((4 <<< 5) ||| m) >>> 5 = 4 := by
  have h128 : (4 <<< 5 : Nat) = 128 := by decide
  rw [h128, or_eq_add (k := 7) (by norm_num) (by omega), Nat.shiftRight_eq_div_pow]
  have : (2 : Nat) ^ 5 = 32 := by norm_num
  rw [this]
  omega

theorem opus_header_and {m : Nat} (h : m < 32) : ((4 <<< 5) ||| m) &&& 0x1F = m := by
  have h128 : (4 <<< 5 : Nat) = 128 := by decide
  rw [h128, or_eq_add (k := 7) (by norm_num) (by omega), and_31]
  omega

theorem celt_header_eq (m : Nat) : ((0 <<< 5) ||| m) = m := by
  simp

theorem celt_header_shr {m : Nat} (h : m < 32) : m >>> 5 = 0 := by
  rw [Nat.shiftRight_eq_div_pow]
  have : (2 : Nat) ^ 5 = 32 := by norm_num
  rw [this]
  omega

theorem celt_header_and {m : Nat} (h : m < 32) : m &&& 0x1F = m := by
  rw [and_31]
  omega

theorem ite_true_bool {a b : Nat} : (if (true : Bool) = true then a else b) = a := rfl

theorem ite_false_bool {a b : Nat} : (if (false : Bool) = true then a else b) = b := rfl

theorem endbit_lt {l : Nat} (hl : l ≤ 0x1FFF) (e : Bool) :
    (l ||| (if e then 0x2000 else 0) : Nat) < 2 ^ 31 := by
  cases e
  · rw [ite_false_bool, Nat.or_zero]
    omega
  · rw [ite_true_bool, Nat.or_comm, or_eq_add (k := 13) (by norm_num) (by omega)]
    omega

theorem endbit_and_8192 {l : Nat} (hl : l ≤ 0x1FFF) (e : Bool) :
    ((l ||| (if e then 0x2000 else 0) : Nat) &&& 0x2000 > 0) = (e = true) := by
  cases e
  · rw [ite_false_bool, Nat.or_zero, and_eq_zero (k := 13) (by omega) (by norm_num)]
    simp
  · rw [ite_true_bool, Nat.or_comm, or_and_eval (k := 13) (by omega) (by norm_num)]
    simp

theorem endbit_and_8191 {l : Nat} (hl : l ≤ 0x1FFF) (e : Bool) :
    (l ||| (if e then 0x2000 else 0) : Nat) &&& 0x1FFF = l := by
  cases e
  · rw [ite_false_bool, Nat.or_zero, and_8191, Nat.mod_eq_of_lt (by omega)]
  · rw [ite_true_bool, Nat.or_comm, or_and_eval' (by decide), and_8191,
      Nat.mod_eq_of_lt (by omega)]

theorem ebos_nonneg (e : Bool) : (0 : Int) ≤ ((if e then (0x2000 : Nat) else 0) : Int) := by
  cases e <;> norm_num

theorem ebos_lt31 (e : Bool) : ((if e then (0x2000 : Nat) else 0) : Int) < 2 ^ 31 := by
  cases e <;> norm_num

theorem ebos_lt32 (e : Bool) : (if e then (0x2000 : Nat) else 0) < 2 ^ 32 := by
  cases e <;> decide

theorem ebos_decide_8192 (e : Bool) :
    decide ((if e then (0x2000 : Nat) else 0) &&& 0x2000 > 0) = e := by
  cases e <;> decide

theorem ebos_and_8191 (e : Bool) : (if e then (0x2000 : Nat) else 0) &&& 0x1FFF = 0 := by
  cases e <;> decide

theorem endbit_decide {l : Nat} (hl : l ≤ 0x1FFF) (e : Bool) :
    decide ((l ||| (if e then 0x2000 else 0)) &&& 0x2000 > 0) = e := by
  cases e
  · rw [ite_false_bool, Nat.or_zero, and_eq_zero (k := 13) (by omega) (by norm_num)]
    rfl
  · rw [ite_true_bool, Nat.or_comm, or_and_eval (k := 13) (by omega) (by norm_num)]
    rfl

/-- Decoding an encoded Opus chunk, server-origin direction: the source,
sequence number and `length | endBit` varints are abstracted by their
decode behaviour. -/
theorem c3_opus_dec_t (vmode : Nat) (hmode : vmode < 32) (vsrc vseq : Int) (vend : Bool)
    (sb qb tb f : List Nat)
    (hsd : ∀ rest, fromVarint (sb ++ rest) = some (vsrc, sb.length))
    (hqd : ∀ rest, fromVarint (qb ++ rest) = some (vseq, qb.length))
    (htbd : ∀ rest, fromVarint (tb ++ rest) =
      some (((f.length ||| (if vend then 0x2000 else 0) : Nat) : Int), tb.length))
    (hfle : f.length ≤ 0x1FFF) :
    voiceDecode true ((128 ||| vmode) :: (sb ++ (qb ++ (tb ++ f)))) =
      .ok { target := some (targetOf vmode), source := some vsrc, seqNum := some vseq,
            end_ := some vend, frames := some (if f.length ≠ 0 then [f] else []),
            codec := some VCodec.Opus, position := none } := by
  have h128 : (4 <<< 5 : Nat) = 128 := by decide
  have hshr : (128 ||| vmode) >>> 5 = 4 := by rw [← h128]; exact opus_header_shr hmode
  have hand : (128 ||| vmode) &&& 0x1F = vmode := by rw [← h128]; exact opus_header_and hmode
  have hd1 : ((128 ||| vmode) :: (sb ++ (qb ++ (tb ++ f)))).drop 1 = sb ++ (qb ++ (tb ++ f)) :=
    rfl
  have hd2 : ((128 ||| vmode) :: (sb ++ (qb ++ (tb ++ f)))).drop (1 + sb.length) =
      qb ++ (tb ++ f) := by
    rw [show 1 + sb.length = sb.length + 1 by omega, List.drop_succ_cons, List.drop_left]
  have hd3 : ((128 ||| vmode) :: (sb ++ (qb ++ (tb ++ f)))).drop (1 + sb.length + qb.length) =
      tb ++ f := by
    rw [show 1 + sb.length + qb.length = (sb.length + qb.length) + 1 by omega,
      List.drop_succ_cons, ← List.append_assoc, List.drop_left' (by simp)]
  have hd4 : ((128 ||| vmode) :: (sb ++ (qb ++ (tb ++ f)))).drop
      (1 + sb.length + qb.length + tb.length) = f := by
    rw [show 1 + sb.length + qb.length + tb.length = (sb.length + qb.length + tb.length) + 1
      by omega, List.drop_succ_cons, ← List.append_assoc, ← List.append_assoc,
      List.drop_left' (by simp <;> omega)]
  have hlen : ((128 ||| vmode) :: (sb ++ (qb ++ (tb ++ f)))).length =
      1 + sb.length + qb.length + tb.length + f.length := by
    simp
    omega
  have hex : (f.length ||| (if vend then 0x2000 else 0) : Nat) < 2 ^ 32 :=
    lt_trans (endbit_lt hfle vend) (by norm_num)
  have hc0 : (((128 ||| vmode) :: (sb ++ (qb ++ (tb ++ f)))).length = 0) ↔ False := by simp
  have hc41 : ((4 : Nat) = 1) ↔ False := by norm_num
  have hc44 : ((4 : Nat) = 4) ↔ True := by norm_num
  have hclen : ¬(((128 ||| vmode) :: (sb ++ (qb ++ (tb ++ f)))).length <
      1 + sb.length + qb.length + tb.length + f.length) := by
    rw [hlen]
    omega
  have hpos : posRead ((128 ||| vmode) :: (sb ++ (qb ++ (tb ++ f))))
      (1 + sb.length + qb.length + tb.length + f.length) = none :=
    posRead_none _ _ (by rw [hlen]; omega)
  have htv : (if vmode = 0 then VTarget.normal else if vmode = 1 then VTarget.shout
      else if vmode = 2 then VTarget.whisper else VTarget.loopback) = targetOf vmode := rfl
  simp only [voiceDecode, hc0, List.getD_cons_zero, hshr, hand, hc41, hc44, if_false, if_true,
    eq_self_iff_true, hd1, hsd (qb ++ (tb ++ f)), hd2, hqd (tb ++ f), hd3, htbd f,
    jsAnd_ofNat hex, endbit_decide hfle vend, endbit_and_8191 hfle vend, if_neg hclen, hd4,
    List.take_length, hpos, htv]


/-- Decoding an encoded Opus chunk, client-origin direction (no source
field). -/
theorem c3_opus_dec_f (vmode : Nat) (hmode : vmode < 32) (vseq : Int) (vend : Bool)
    (qb tb f : List Nat)
    (hqd : ∀ rest, fromVarint (qb ++ rest) = some (vseq, qb.length))
    (htbd : ∀ rest, fromVarint (tb ++ rest) =
      some (((f.length ||| (if vend then 0x2000 else 0) : Nat) : Int), tb.length))
    (hfle : f.length ≤ 0x1FFF) :
    voiceDecode false ((128 ||| vmode) :: (qb ++ (tb ++ f))) =
      .ok { target := some (targetOf vmode), source := none, seqNum := some vseq,
            end_ := some vend, frames := some (if f.length ≠ 0 then [f] else []),
            codec := some VCodec.Opus, position := none } := by
  have h128 : (4 <<< 5 : Nat) = 128 := by decide
  have hshr : (128 ||| vmode) >>> 5 = 4 := by rw [← h128]; exact opus_header_shr hmode
  have hand : (128 ||| vmode) &&& 0x1F = vmode := by rw [← h128]; exact opus_header_and hmode
  have hd1 : ((128 ||| vmode) :: (qb ++ (tb ++ f))).drop 1 = qb ++ (tb ++ f) := rfl
  have hd3 : ((128 ||| vmode) :: (qb ++ (tb ++ f))).drop (1 + qb.length) = tb ++ f := by
    rw [show 1 + qb.length = qb.length + 1 by omega, List.drop_succ_cons, List.drop_left]
  have hd4 : ((128 ||| vmode) :: (qb ++ (tb ++ f))).drop (1 + qb.length + tb.length) = f := by
    rw [show 1 + qb.length + tb.length = (qb.length + tb.length) + 1 by omega,
      List.drop_succ_cons, ← List.append_assoc, List.drop_left' (by simp)]
  have hlen : ((128 ||| vmode) :: (qb ++ (tb ++ f))).length =
      1 + qb.length + tb.length + f.length := by
    simp
    omega
  have hex : (f.length ||| (if vend then 0x2000 else 0) : Nat) < 2 ^ 32 :=
    lt_trans (endbit_lt hfle vend) (by norm_num)
  have hc0 : (((128 ||| vmode) :: (qb ++ (tb ++ f))).length = 0) ↔ False := by simp
  have hc41 : ((4 : Nat) = 1) ↔ False := by norm_num
  have hc44 : ((4 : Nat) = 4) ↔ True := by norm_num
  have hclen : ¬(((128 ||| vmode) :: (qb ++ (tb ++ f))).length <
      1 + qb.length + tb.length + f.length) := by
    rw [hlen]
    omega
  have hpos : posRead ((128 ||| vmode) :: (qb ++ (tb ++ f)))
      (1 + qb.length + tb.length + f.length) = none :=
    posRead_none _ _ (by rw [hlen]; omega)
  have htv : (if vmode = 0 then VTarget.normal else if vmode = 1 then VTarget.shout
      else if vmode = 2 then VTarget.whisper else VTarget.loopback) = targetOf vmode := rfl
  simp only [voiceDecode, hc0, List.getD_cons_zero, hshr, hand, hc41, hc44, if_false, if_true,
    eq_self_iff_true, Bool.false_eq_true, hd1, hqd (tb ++ f), hd3, htbd f,
    jsAnd_ofNat hex, endbit_decide hfle vend, endbit_and_8191 hfle vend, if_neg hclen, hd4,
    List.take_length, hpos, htv]

/-- Round trip for a valid Opus packet, both directions. -/
theorem c3_opus_case (d : Bool) (vsrc vseq : Int) (vmode : Nat) (vend : Bool)
    (vframes : List (List Nat)) (hmode : vmode < 32) (hs0 : 0 ≤ vseq) (hs1 : vseq < 2 ^ 31)
    (hsrc : d = true → 0 ≤ vsrc ∧ vsrc < 2 ^ 31)
    (hop : vframes = [] ∨ (vframes.length = 1 ∧ 0 < (vframes.getD 0 []).length ∧
      (vframes.getD 0 []).length ≤ 0x1FFF)) :
    ∃ bytes, voiceEncode d (.voice ⟨vsrc, vmode, .Opus, vseq, vend, vframes, none⟩) =
        .ok bytes ∧
      voiceDecode d bytes =
        .ok (expectedVoice d ⟨vsrc, vmode, .Opus, vseq, vend, vframes, none⟩) := by
  obtain ⟨qb, hqe, hqne, hqd⟩ := varintFieldI vseq hs0 hs1
  have h128 : (4 <<< 5 : Nat) = 128 := by decide
  rcases hop with hnil | ⟨hlen1, hfpos, hfle⟩
  · subst hnil
    obtain ⟨tb, htbe, htbne, htbd⟩ :=
      varintFieldI (((if vend then 0x2000 else 0 : Nat)) : Int)
        (Int.natCast_nonneg _) (by cases vend <;> norm_num)
    have htbd' : ∀ rest, fromVarint (tb ++ rest) =
        some ((((([] : List Nat).length ||| (if vend then 0x2000 else 0) : Nat)) : Int),
          tb.length) := by
      intro rest
      rw [htbd rest]
      norm_num
    have hgt0 : ((0 : Nat) > 1) ↔ False := by norm_num
    cases d with
    | false =>
      refine ⟨(128 ||| vmode) :: (qb ++ (tb ++ [])), ?_, ?_⟩
      · simp only [voiceEncode, List.length_nil, List.append_nil, List.nil_append,
          List.append_assoc, h128, hgt0, eq_self_iff_true, if_true, if_false,
          Bool.false_eq_true, htbe, hqe]
      · have hdec := c3_opus_dec_f vmode hmode vseq vend qb tb [] hqd htbd' (by simp)
        rw [hdec]
        simp [expectedVoice]
    | true =>
      obtain ⟨sb, hse, hsne, hsd⟩ := varintFieldI vsrc (hsrc rfl).1 (hsrc rfl).2
      refine ⟨(128 ||| vmode) :: (sb ++ (qb ++ (tb ++ []))), ?_, ?_⟩
      · simp only [voiceEncode, List.length_nil, List.append_nil, List.nil_append,
          List.append_assoc, h128, hgt0, eq_self_iff_true, if_true, if_false, htbe, hqe, hse]
      · have hdec := c3_opus_dec_t vmode hmode vsrc vseq vend sb qb tb [] hsd hqd htbd'
          (by simp)
        rw [hdec]
        simp [expectedVoice]
  · obtain ⟨f, rfl⟩ := List.length_eq_one.mp hlen1
    simp only [List.getD_cons_zero] at hfpos hfle
    have hne : f.length ≠ 0 := by omega
    obtain ⟨tb, htbe, htbne, htbd⟩ :=
      varintFieldI ((f.length ||| (if vend then 0x2000 else 0) : Nat) : Int)
        (by exact_mod_cast Nat.zero_le _) (by exact_mod_cast endbit_lt hfle vend)
    have hgt1 : (([f] : List (List Nat)).length > 1) ↔ False := by simp
    have heq0 : (([f] : List (List Nat)).length = 0) ↔ False := by simp
    cases d with
    | false =>
      refine ⟨(128 ||| vmode) :: (qb ++ (tb ++ f)), ?_, ?_⟩
      · simp only [voiceEncode, hgt1, heq0, List.getD_cons_zero, List.append_nil,
          List.nil_append, List.append_assoc, h128, eq_self_iff_true, if_true, if_false,
          Bool.false_eq_true, htbe, hqe]
      · have hdec := c3_opus_dec_f vmode hmode vseq vend qb tb f hqd htbd hfle
        rw [hdec]
        simp [expectedVoice, hne]
    | true =>
      obtain ⟨sb, hse, hsne, hsd⟩ := varintFieldI vsrc (hsrc rfl).1 (hsrc rfl).2
      refine ⟨(128 ||| vmode) :: (sb ++ (qb ++ (tb ++ f))), ?_, ?_⟩
      · simp only [voiceEncode, hgt1, heq0, List.getD_cons_zero, List.append_nil,
          List.append_assoc, h128, eq_self_iff_true, if_true, if_false, htbe, hqe, hse]
      · have hdec := c3_opus_dec_t vmode hmode vsrc vseq vend sb qb tb f hsd hqd htbd hfle
        rw [hdec]
        simp [expectedVoice, hne]

/-- Decoding an encoded CELT_Alpha chunk, server-origin direction. -/
theorem c3_celt_dec_t (vmode : Nat) (hmode : vmode < 32) (vsrc vseq : Int) (vend : Bool)
    (sb qb : List Nat) (vframes : List (List Nat))
    (hsd : ∀ rest, fromVarint (sb ++ rest) = some (vsrc, sb.length))
    (hqd : ∀ rest, fromVarint (qb ++ rest) = some (vseq, qb.length))
    (hf : ∀ f ∈ vframes, f.length ≤ 127)
    (hne : vframes = [] → vend = true)
    (hlast : vend = false → vframes ≠ [] ∧ 0 < (vframes.getLast?.getD []).length) :
    voiceDecode true (vmode :: (sb ++ (qb ++ celtWire vframes vend))) =
      .ok { target := some (targetOf vmode), source := some vsrc, seqNum := some vseq,
            end_ := some vend, frames := some vframes,
            codec := some VCodec.CELT_Alpha, position := none } := by
  have hshr : vmode >>> 5 = 0 := celt_header_shr hmode
  have hand : vmode &&& 0x1F = vmode := celt_header_and hmode
  have hd1 : (vmode :: (sb ++ (qb ++ celtWire vframes vend))).drop 1 =
      sb ++ (qb ++ celtWire vframes vend) := rfl
  have hd2 : (vmode :: (sb ++ (qb ++ celtWire vframes vend))).drop (1 + sb.length) =
      qb ++ celtWire vframes vend := by
    rw [show 1 + sb.length = sb.length + 1 by omega, List.drop_succ_cons, List.drop_left]
  have hd3 : (vmode :: (sb ++ (qb ++ celtWire vframes vend))).drop (1 + sb.length + qb.length) =
      celtWire vframes vend := by
    rw [show 1 + sb.length + qb.length = (sb.length + qb.length) + 1 by omega,
      List.drop_succ_cons, ← List.append_assoc, List.drop_left' (by simp)]
  have hlen : (vmode :: (sb ++ (qb ++ celtWire vframes vend))).length =
      1 + sb.length + qb.length + (celtWire vframes vend).length := by
    simp
    omega
  have hrun : celtLoop (vmode :: (sb ++ (qb ++ celtWire vframes vend)))
      (1 + sb.length + qb.length) [] =
      .ok (vframes, vend, 1 + sb.length + qb.length + (celtWire vframes vend).length) := by
    unfold celtLoop
    have h := celtLoop_run
      ((vmode :: (sb ++ (qb ++ celtWire vframes vend))).length - (1 + sb.length + qb.length))
      (vmode :: (sb ++ (qb ++ celtWire vframes vend))) (1 + sb.length + qb.length) [] vframes
      vend hd3 (le_refl _) hf hne hlast
    simpa using h
  have hpos : posRead (vmode :: (sb ++ (qb ++ celtWire vframes vend)))
      (1 + sb.length + qb.length + (celtWire vframes vend).length) = none :=
    posRead_none _ _ (by rw [hlen]; omega)
  have hc0 : ((vmode :: (sb ++ (qb ++ celtWire vframes vend))).length = 0) ↔ False := by simp
  have hc01 : ((0 : Nat) = 1) ↔ False := by norm_num
  have hc04 : ((0 : Nat) = 4) ↔ False := by norm_num
  have hc00 : ((0 : Nat) = 0) ↔ True := by norm_num
  have htv : (if vmode = 0 then VTarget.normal else if vmode = 1 then VTarget.shout
      else if vmode = 2 then VTarget.whisper else VTarget.loopback) = targetOf vmode := rfl
  simp only [voiceDecode, hc0, List.getD_cons_zero, hshr, hand, hc01, hc04, hc00, if_false,
    if_true, eq_self_iff_true, hd1, hsd (qb ++ celtWire vframes vend), hd2,
    hqd (celtWire vframes vend), hrun, hpos, htv]

/-- Decoding an encoded CELT_Alpha chunk, client-origin direction. -/
theorem c3_celt_dec_f (vmode : Nat) (hmode : vmode < 32) (vseq : Int) (vend : Bool)
    (qb : List Nat) (vframes : List (List Nat))
    (hqd : ∀ rest, fromVarint (qb ++ rest) = some (vseq, qb.length))
    (hf : ∀ f ∈ vframes, f.length ≤ 127)
    (hne : vframes = [] → vend = true)
    (hlast : vend = false → vframes ≠ [] ∧ 0 < (vframes.getLast?.getD []).length) :
    voiceDecode false (vmode :: (qb ++ celtWire vframes vend)) =
      .ok { target := some (targetOf vmode), source := none, seqNum := some vseq,
            end_ := some vend, frames := some vframes,
            codec := some VCodec.CELT_Alpha, position := none } := by
  have hshr : vmode >>> 5 = 0 := celt_header_shr hmode
  have hand : vmode &&& 0x1F = vmode := celt_header_and hmode
  have hd1 : (vmode :: (qb ++ celtWire vframes vend)).drop 1 =
      qb ++ celtWire vframes vend := rfl
  have hd2 : (vmode :: (qb ++ celtWire vframes vend)).drop (1 + qb.length) =
      celtWire vframes vend := by
    rw [show 1 + qb.length = qb.length + 1 by omega, List.drop_succ_cons, List.drop_left]
  have hlen : (vmode :: (qb ++ celtWire vframes vend)).length =
      1 + qb.length + (celtWire vframes vend).length := by
    simp
    omega
  have hrun : celtLoop (vmode :: (qb ++ celtWire vframes vend)) (1 + qb.length) [] =
      .ok (vframes, vend, 1 + qb.length + (celtWire vframes vend).length) := by
    unfold celtLoop
    have h := celtLoop_run
      ((vmode :: (qb ++ celtWire vframes vend)).length - (1 + qb.length))
      (vmode :: (qb ++ celtWire vframes vend)) (1 + qb.length) [] vframes
      vend hd2 (le_refl _) hf hne hlast
    simpa using h
  have hpos : posRead (vmode :: (qb ++ celtWire vframes vend))
      (1 + qb.length + (celtWire vframes vend).length) = none :=
    posRead_none _ _ (by rw [hlen]; omega)
  have hc0 : ((vmode :: (qb ++ celtWire vframes vend)).length = 0) ↔ False := by simp
  have hc01 : ((0 : Nat) = 1) ↔ False := by norm_num
  have hc04 : ((0 : Nat) = 4) ↔ False := by norm_num
  have hc00 : ((0 : Nat) = 0) ↔ True := by norm_num
  have htv : (if vmode = 0 then VTarget.normal else if vmode = 1 then VTarget.shout
      else if vmode = 2 then VTarget.whisper else VTarget.loopback) = targetOf vmode := rfl
  simp only [voiceDecode, hc0, List.getD_cons_zero, hshr, hand, hc01, hc04, hc00, if_false,
    if_true, eq_self_iff_true, Bool.false_eq_true, hd1, hd2, hqd (celtWire vframes vend),
    hrun, hpos, htv]

/-- Round trip for a valid CELT_Alpha packet, both directions. -/
theorem c3_celt_case (d : Bool) (vsrc vseq : Int) (vmode : Nat) (vend : Bool)
    (vframes : List (List Nat)) (hmode : vmode < 32) (hs0 : 0 ≤ vseq) (hs1 : vseq < 2 ^ 31)
    (hsrc : d = true → 0 ≤ vsrc ∧ vsrc < 2 ^ 31)
    (hf : ∀ f ∈ vframes, f.length ≤ 127)
    (hlast : vend = false → vframes ≠ [] ∧ 0 < (vframes.getLast?.getD []).length) :
    ∃ bytes, voiceEncode d (.voice ⟨vsrc, vmode, .CELT_Alpha, vseq, vend, vframes, none⟩) =
        .ok bytes ∧
      voiceDecode d bytes =
        .ok (expectedVoice d ⟨vsrc, vmode, .CELT_Alpha, vseq, vend, vframes, none⟩) := by
  obtain ⟨qb, hqe, hqne, hqd⟩ := varintFieldI vseq hs0 hs1
  have hne : vframes = [] → vend = true := by
    intro h0
    by_contra hc
    exact absurd h0 (hlast (Bool.not_eq_true vend ▸ hc)).1
  have hc1 : (vframes.length = 0 ∧ vend = false) ↔ False := by
    constructor
    · rintro ⟨h0, he⟩
      rw [hne (List.length_eq_zero.mp h0)] at he
      exact Bool.noConfusion he
    · exact False.elim
  have hc2 : vframes.any (fun f => 127 < f.length) = false := by
    rw [List.any_eq_false]
    intro f hf'
    simpa using hf f hf'
  have hdata : celtData vframes vend = celtWire vframes vend := celtData_eq vframes vend hf hne
  cases d with
  | false =>
    refine ⟨vmode :: (qb ++ celtWire vframes vend), ?_, ?_⟩
    · simp only [voiceEncode, hc1, hc2, hdata, List.append_nil, List.nil_append,
        List.append_assoc, Nat.zero_shiftLeft, Nat.zero_or, eq_self_iff_true, if_true,
        if_false, Bool.false_eq_true, hqe]
    · have hdec := c3_celt_dec_f vmode hmode vseq vend qb vframes hqd hf hne hlast
      rw [hdec]
      simp [expectedVoice]
  | true =>
    obtain ⟨sb, hse, hsne, hsd⟩ := varintFieldI vsrc (hsrc rfl).1 (hsrc rfl).2
    refine ⟨vmode :: (sb ++ (qb ++ celtWire vframes vend)), ?_, ?_⟩
    · simp only [voiceEncode, hc1, hc2, hdata, List.append_nil, List.nil_append,
        List.append_assoc, Nat.zero_shiftLeft, Nat.zero_or, eq_self_iff_true, if_true,
        if_false, Bool.false_eq_true, hqe, hse]
    · have hdec := c3_celt_dec_t vmode hmode vsrc vseq vend sb qb vframes hsd hqd hf hne hlast
      rw [hdec]
      simp [expectedVoice]

/-- Claim C3 (amended): for every voice packet that is valid for the round
trip - in-range fields, no position (the encoded 12 position bytes are
always dropped by the decoder's strict `> 12` check), codec Opus or
CELT_Alpha (ids 2 and 3 die on the `codecIf` ReferenceError), nonempty
single Opus frame or none, CELT frames of at most 127 bytes with a nonempty
last frame when the end bit is clear - encoding followed by decoding in the
same direction succeeds and reproduces the packet: target from the mode,
source exactly on server-originated packets, sequence number, end flag and
frames intact, and no position. -/
theorem c3_voice_roundtrip_amended (d : Bool) (v : VoiceData) (hv : ValidVoice d v) :
    ∃ bytes, voiceEncode d (.voice v) = .ok bytes ∧
      voiceDecode d bytes = .ok (expectedVoice d v) := by
  obtain ⟨vsrc, vmode, vcodec, vseq, vend, vframes, vpos⟩ := v
  obtain ⟨hmode, hs0, hs1, hsrc, hbytes, hposn, hcodec⟩ := hv
  simp only at hmode hs0 hs1 hsrc hbytes hposn hcodec
  subst hposn
  rcases hcodec with ⟨hc, hop⟩ | ⟨hc, hf, hlast⟩
  · subst hc
    exact c3_opus_case d vsrc vseq vmode vend vframes hmode hs0 hs1 hsrc hop
  · subst hc
    exact c3_celt_case d vsrc vseq vmode vend vframes hmode hs0 hs1 hsrc hf hlast

/-- Witness for C3 (amended) at a concrete valid packet. -/
theorem c3_witness :
    ValidVoice true ⟨7, 1, .Opus, 300, true, [[0xCC]], none⟩ ∧
    ∃ bytes,
      voiceEncode true (.voice ⟨7, 1, .Opus, 300, true, [[0xCC]], none⟩) = .ok bytes ∧
      voiceDecode true bytes =
        .ok (expectedVoice true ⟨7, 1, .Opus, 300, true, [[0xCC]], none⟩) :=
  ⟨by decide, c3_voice_roundtrip_amended true ⟨7, 1, .Opus, 300, true, [[0xCC]], none⟩
    (by decide)⟩

/-! ## Control codec (src/lib/data.js), claim C8 -/

/-- The `nameById` registry of `src/lib/data.js`. -/
def nameById : Nat → Option String
  | 0 => some ("Version")
  | 1 => some ("UDPTunnel")
  | 2 => some ("Authenticate")
  | 3 => some ("Ping")
  | 4 => some ("Reject")
  | 5 => some ("ServerSync")
  | 6 => some ("ChannelRemove")
  | 7 => some ("ChannelState")
  | 8 => some ("UserRemove")
  | 9 => some ("UserState")
  | 10 => some ("BanList")
  | 11 => some ("TextMessage")
  | 12 => some ("PermissionDenied")
  | 13 => some ("ACL")
  | 14 => some ("QueryUsers")
  | 15 => some ("CryptSetup")
  | 16 => some ("ContextActionModify")
  | 17 => some ("ContextAction")
  | 18 => some ("UserList")
  | 19 => some ("VoiceTarget")
  | 20 => some ("PermissionQuery")
  | 21 => some ("CodecVersion")
  | 22 => some ("UserStats")
  | 23 => some ("RequestBlob")
  | 24 => some ("ServerConfig")
  | 25 => some ("SuggestConfig")
  | _ => none

/-- A control frame: 16-bit message type and payload bytes.  The protobuf
decoding of a payload is abstracted by a parameter `sdec` below (`none`
models a `decode` throw). -/
structure CFrame where
  ty : Nat
  data : List Nat
deriving DecidableEq, Repr

/-- A message pushed by the control decoder: the message name together with
either the raw bytes (`UDPTunnel`) or the protobuf-decoded payload. -/
abbrev CtrlMsg (α : Type) : Type := String × (List Nat ⊕ α)

/-- The `while (this._bufferSize >= 6)` loop of
`Decoder.prototype._transform` in `src/lib/data.js`, with explicit fuel for
structural recursion.  Every iteration consumes `6 + size ≥ 6` bytes of the
buffer, so `fuel ≥ buf.length` is an invariant of every call and the fuel
can hit `0` only with an empty buffer, where the source loop also stops with
nothing consumed - which is exactly the fuel-0 result.  `.error` models
`callback(e)` from a `decode` throw (including the `TypeError` on
`messages[undefined]` for an unregistered id). -/
def drainF {α : Type} (sdec : Nat → List Nat → Option α) :
    Nat → List Nat → List (CtrlMsg α) → Except String (List (CtrlMsg α) × List Nat)
  | 0, buf, acc => .ok (acc, buf)
  | fuel + 1, buf, acc =>
    if buf.length < 6 then .ok (acc, buf)
    else
      let ty := buf.getD 0 0 * 256 + buf.getD 1 0
      let size := buf.getD 2 0 * 2 ^ 24 + buf.getD 3 0 * 2 ^ 16 +
        buf.getD 4 0 * 256 + buf.getD 5 0
      if buf.length < 6 + size then .ok (acc, buf)
      else
        let data := (buf.drop 6).take size
        match nameById ty with
        | none => .error ("TypeError: messages[typeName] is undefined")
        | some nm =>
          if nm = "UDPTunnel" then
            drainF sdec fuel (buf.drop (6 + size)) (acc ++ [(nm, .inl data)])
          else
            match sdec ty data with
            | none => .error ("decode threw")
            | some m => drainF sdec fuel (buf.drop (6 + size)) (acc ++ [(nm, .inr m)])

/-- One `_transform` call of the control decoder: append the chunk to the
internal buffer, then drain complete frames. -/
def ctrlPush {α : Type} (sdec : Nat → List Nat → Option α) (buf chunk : List Nat) :
    Except String (List (CtrlMsg α) × List Nat) :=
  drainF sdec (buf ++ chunk).length (buf ++ chunk) []

/-- Feeding a sequence of chunks into a fresh control decoder, collecting
every pushed message in order. -/
def ctrlRun {α : Type} (sdec : Nat → List Nat → Option α) (chunks : List (List Nat)) :
    Except String (List (CtrlMsg α) × List Nat) :=
  chunks.foldl
    (fun st c =>
      match st with
      | .error e => .error e
      | .ok (ms, buf) =>
        match ctrlPush sdec buf c with
        | .error e => .error e
        | .ok (ms2, buf2) => .ok (ms ++ ms2, buf2))
    (.ok ([], []))

/-- The 6-byte header written by `Encoder.prototype._transform`
(`writeUInt16BE(id, 0)`, `writeUInt32BE(data.length, 2)`) followed by the
payload. -/
def frameWire (fr : CFrame) : List Nat :=
  [fr.ty / 256 % 256, fr.ty % 256,
   fr.data.length / 2 ^ 24 % 256, fr.data.length / 2 ^ 16 % 256,
   fr.data.length / 256 % 256, fr.data.length % 256] ++ fr.data

/-- The concatenated wire bytes of a frame sequence. -/
def wireAll (frames : List CFrame) : List Nat :=
  frames.flatMap frameWire

/-- Well-formedness of a control frame with respect to the abstract protobuf
decoder: registered id, 32-bit payload length, and a payload its message
type can decode (`UDPTunnel`, id 1, is passed through undecoded). -/
def FrameOK {α : Type} (sdec : Nat → List Nat → Option α) (fr : CFrame) : Prop :=
  fr.ty < 26 ∧ fr.data.length < 2 ^ 32 ∧ (fr.ty ≠ 1 → (sdec fr.ty fr.data).isSome = true)

instance {α : Type} (sdec : Nat → List Nat → Option α) (fr : CFrame) :
    Decidable (FrameOK sdec fr) := by
  unfold FrameOK
  infer_instance

/-- The message the decoder pushes for a well-formed frame. -/
def frameMsg {α : Type} (sdec : Nat → List Nat → Option α) (fr : CFrame) : CtrlMsg α :=
  match nameById fr.ty with
  | none => ("", .inl [])
  | some nm =>
    if nm = "UDPTunnel" then (nm, .inl fr.data)
    else
      match sdec fr.ty fr.data with
      | none => (nm, .inl [])
      | some m => (nm, .inr m)

/-- The frames of the sequence that are entirely contained in the first `n`
bytes of its wire image. -/
def framesWithin : List CFrame → Nat → List CFrame
  | [], _ => []
  | fr :: rest, n =>
    if 6 + fr.data.length ≤ n then fr :: framesWithin rest (n - (6 + fr.data.length))
    else []

theorem frameWire_length (fr : CFrame) : (frameWire fr).length = 6 + fr.data.length := by
  simp [frameWire]
  omega

theorem framesWithin_zero (frames : List CFrame) : framesWithin frames 0 = [] := by
  cases frames with
  | nil => rfl
  | cons fr rest =>
    rw [framesWithin, if_neg (by omega)]

/-- Registered non-UDPTunnel ids resolve to a name other than `UDPTunnel`. -/
theorem nameById_reg : ∀ ty < 26, ty ≠ 1 →
    ((nameById ty).isSome = true ∧ (nameById ty).getD ("") ≠ "UDPTunnel") := by decide

/-- Reading the six header bytes out of a buffer that starts with a frame's
wire image recovers the id and payload size. -/
theorem wire_reads (fr : CFrame) (pre suf tail : List Nat)
    (happ : pre ++ suf = frameWire fr ++ tail) (h6 : 6 ≤ pre.length)
    (hty : fr.ty < 2 ^ 16) (hlen : fr.data.length < 2 ^ 32) :
    pre.getD 0 0 * 256 + pre.getD 1 0 = fr.ty ∧
    pre.getD 2 0 * 2 ^ 24 + pre.getD 3 0 * 2 ^ 16 + pre.getD 4 0 * 256 + pre.getD 5 0 =
      fr.data.length := by
  have hg : ∀ i, i < 6 → pre.getD i 0 = (frameWire fr).getD i 0 := by
    intro i hi
    have h1 : (pre ++ suf).getD i 0 = pre.getD i 0 := by
      rw [List.getD_eq_getElem?_getD, List.getElem?_append_left (by omega),
        ← List.getD_eq_getElem?_getD]
    have h2 : ((frameWire fr) ++ tail).getD i 0 = (frameWire fr).getD i 0 := by
      rw [List.getD_eq_getElem?_getD, List.getElem?_append_left (by rw [frameWire_length]; omega),
        ← List.getD_eq_getElem?_getD]
    rw [← h1, happ, h2]
  have e0 := hg 0 (by omega)
  have e1 := hg 1 (by omega)
  have e2 := hg 2 (by omega)
  have e3 := hg 3 (by omega)
  have e4 := hg 4 (by omega)
  have e5 := hg 5 (by omega)
  simp only [frameWire, List.cons_append, List.nil_append, List.getD_cons_zero,
    List.getD_cons_succ] at e0 e1 e2 e3 e4 e5
  rw [e0, e1, e2, e3, e4, e5]
  constructor
  · omega
  · omega

/-- Draining a buffer that is a prefix of the wire image of well-formed
frames emits exactly the fully buffered frames, in order, and leaves the
trailing partial frame in the buffer. -/
theorem drain_prefix {α : Type} (sdec : Nat → List Nat → Option α) (fuel : Nat) :
    ∀ (frames : List CFrame) (pre suf : List Nat) (acc : List (CtrlMsg α)),
    (∀ fr ∈ frames, FrameOK sdec fr) →
    pre ++ suf = wireAll frames →
    pre.length ≤ fuel →
    drainF sdec fuel pre acc =
      .ok (acc ++ (framesWithin frames pre.length).map (frameMsg sdec),
           pre.drop (wireAll (framesWithin frames pre.length)).length) := by
  induction fuel with
  | zero =>
    intro frames pre suf acc hok happ hfuel
    have hpre : pre = [] := List.length_eq_zero.mp (by omega)
    subst hpre
    simp [drainF, framesWithin_zero, wireAll]
  | succ fuel ih =>
    intro frames pre suf acc hok happ hfuel
    match frames with
    | [] =>
      have hpre : pre = [] := by
        have h : pre ++ suf = [] := by simpa [wireAll] using happ
        exact (List.append_eq_nil.mp h).1
      subst hpre
      simp [drainF, framesWithin]
    | fr :: rest =>
      obtain ⟨hty26, hlen32, hdec⟩ := hok fr (by simp)
      have happ' : pre ++ suf = frameWire fr ++ wireAll rest := by
        rw [happ, wireAll, List.flatMap_cons]
        rfl
      by_cases h6 : pre.length < 6
      · simp only [drainF]
        rw [if_pos h6, framesWithin, if_neg (by omega)]
        simp [wireAll]
      · push_neg at h6
        obtain ⟨hrty, hrsize⟩ := wire_reads fr pre suf (wireAll rest) happ' h6
          (by omega) hlen32
        by_cases hcomp : pre.length < 6 + fr.data.length
        · simp only [drainF]
          rw [if_neg (by omega), hrty, hrsize, if_pos hcomp, framesWithin,
            if_neg (by omega)]
          simp [wireAll]
        · push_neg at hcomp
          have hfwdrop : (frameWire fr).drop (6 + fr.data.length) = [] := by
            rw [← frameWire_length fr, List.drop_length]
          have hfwtake : (frameWire fr).take (6 + fr.data.length) = frameWire fr := by
            rw [← frameWire_length fr, List.take_length]
          have hdrop : pre.drop (6 + fr.data.length) ++ suf = wireAll rest := by
            have h := congrArg (List.drop (6 + fr.data.length)) happ'
            rw [List.drop_append_eq_append_drop, List.drop_append_eq_append_drop,
              show 6 + fr.data.length - pre.length = 0 by omega, hfwdrop] at h
            rw [show 6 + fr.data.length - (frameWire fr).length = 0 by
                rw [frameWire_length]; omega] at h
            simpa using h
          have htake : pre.take (6 + fr.data.length) = frameWire fr := by
            have h := congrArg (List.take (6 + fr.data.length)) happ'
            rw [List.take_append_eq_append_take, List.take_append_eq_append_take,
              show 6 + fr.data.length - pre.length = 0 by omega, hfwtake] at h
            rw [show 6 + fr.data.length - (frameWire fr).length = 0 by
                rw [frameWire_length]; omega] at h
            simpa using h
          have hpre_eq : pre = frameWire fr ++ pre.drop (6 + fr.data.length) := by
            conv_lhs => rw [← List.take_append_drop (6 + fr.data.length) pre]
            rw [htake]
          have hdata : (pre.drop 6).take fr.data.length = fr.data := by
            conv_lhs => rw [hpre_eq]
            have h1 : (frameWire fr ++ pre.drop (6 + fr.data.length)).drop 6 =
                fr.data ++ pre.drop (6 + fr.data.length) := rfl
            rw [h1, List.take_left' rfl]
          have hrec := ih rest (pre.drop (6 + fr.data.length)) suf
            (acc ++ [frameMsg sdec fr]) (fun g hg => hok g (by simp [hg]))
            hdrop (by rw [List.length_drop]; omega)
          have hfw : framesWithin (fr :: rest) pre.length =
              fr :: framesWithin rest (pre.drop (6 + fr.data.length)).length := by
            rw [framesWithin, if_pos (by omega), List.length_drop]
          have hwl : (wireAll (framesWithin (fr :: rest) pre.length)).length =
              6 + fr.data.length +
              (wireAll (framesWithin rest (pre.drop (6 + fr.data.length)).length)).length := by
            rw [hfw, wireAll, List.flatMap_cons, List.length_append, frameWire_length]
            rfl
          have hdd : pre.drop (6 + fr.data.length +
              (wireAll (framesWithin rest (pre.drop (6 + fr.data.length)).length)).length) =
              (pre.drop (6 + fr.data.length)).drop
              (wireAll (framesWithin rest (pre.drop (6 + fr.data.length)).length)).length := by
            rw [List.drop_drop]
          simp only [drainF]
          rw [if_neg (by omega), hrty, hrsize, if_neg (by omega), hdata]
          by_cases hty1 : fr.ty = 1
          · have hnb : nameById fr.ty = some ("UDPTunnel") := by
              rw [hty1]
              rfl
            have hmsg : frameMsg sdec fr = (("UDPTunnel" : String), Sum.inl fr.data) := by
              simp [frameMsg, hnb]
            rw [hmsg] at hrec
            rw [hnb]
            simp only [eq_self_iff_true, if_true, hrec]
            rw [hwl, hdd, hfw, List.map_cons, hmsg]
            simp
          · have hreg := nameById_reg fr.ty hty26 hty1
            obtain ⟨nm, hnb⟩ : ∃ nm, nameById fr.ty = some nm :=
              Option.isSome_iff_exists.mp hreg.1
            have hnmne : nm ≠ "UDPTunnel" := by
              have h2 := hreg.2
              rw [hnb] at h2
              simpa using h2
            obtain ⟨m, hm⟩ : ∃ m, sdec fr.ty fr.data = some m :=
              Option.isSome_iff_exists.mp (hdec hty1)
            have hmsg : frameMsg sdec fr = (nm, Sum.inr m) := by
              simp [frameMsg, hnb, hnmne, hm]
            rw [hmsg] at hrec
            rw [hnb]
            simp only [if_neg hnmne, hm, hrec]
            rw [hwl, hdd, hfw, List.map_cons, hmsg]
            simp

theorem wireAll_append (a b : List CFrame) : wireAll (a ++ b) = wireAll a ++ wireAll b := by
  simp [wireAll]

/-- The fully received frames form a prefix of the frame sequence. -/
theorem framesWithin_take (frames : List CFrame) : ∀ n,
    framesWithin frames n = frames.take (framesWithin frames n).length := by
  induction frames with
  | nil => intro n; rfl
  | cons fr rest ih =>
    intro n
    by_cases h : 6 + fr.data.length ≤ n
    · rw [framesWithin, if_pos h, List.length_cons, List.take_succ_cons]
      rw [← ih (n - (6 + fr.data.length))]
    · rw [framesWithin, if_neg h]
      rfl

/-- The wire bytes of the fully received frames fit in the received count. -/
theorem framesWithin_wire_le (frames : List CFrame) : ∀ n,
    (wireAll (framesWithin frames n)).length ≤ n := by
  induction frames with
  | nil => intro n; simp [framesWithin, wireAll]
  | cons fr rest ih =>
    intro n
    by_cases h : 6 + fr.data.length ≤ n
    · rw [framesWithin, if_pos h, wireAll, List.flatMap_cons, List.length_append,
        frameWire_length]
      have hrec := ih (n - (6 + fr.data.length))
      rw [wireAll] at hrec
      omega
    · rw [framesWithin, if_neg h]
      simp [wireAll]

/-- Receiving `b` more bytes extends the fully received frames monotonically:
the new ones are those of the remaining sequence fitting in the leftover
bytes plus `b`. -/
theorem framesWithin_extend (frames : List CFrame) : ∀ (a b : Nat),
    framesWithin frames (a + b) =
      framesWithin frames a ++
      framesWithin (frames.drop (framesWithin frames a).length)
        (a - (wireAll (framesWithin frames a)).length + b) := by
  induction frames with
  | nil => intro a b; simp [framesWithin]
  | cons fr rest ih =>
    intro a b
    by_cases h : 6 + fr.data.length ≤ a
    · have hL : framesWithin (fr :: rest) (a + b) =
          fr :: framesWithin rest (a + b - (6 + fr.data.length)) := by
        rw [framesWithin, if_pos (by omega)]
      have hA : framesWithin (fr :: rest) a =
          fr :: framesWithin rest (a - (6 + fr.data.length)) := by
        rw [framesWithin, if_pos h]
      rw [hL, hA]
      have hw : (wireAll (fr :: framesWithin rest (a - (6 + fr.data.length)))).length =
          6 + fr.data.length +
          (wireAll (framesWithin rest (a - (6 + fr.data.length)))).length := by
        rw [wireAll, List.flatMap_cons, List.length_append, frameWire_length]
        rfl
      rw [hw, List.length_cons, List.drop_succ_cons]
      rw [show a - (6 + fr.data.length +
          (wireAll (framesWithin rest (a - (6 + fr.data.length)))).length) + b =
          a - (6 + fr.data.length) -
          (wireAll (framesWithin rest (a - (6 + fr.data.length)))).length + b by omega]
      rw [show a + b - (6 + fr.data.length) = a - (6 + fr.data.length) + b by omega]
      rw [ih (a - (6 + fr.data.length)) b, List.cons_append]
    · have hA : framesWithin (fr :: rest) a = [] := by rw [framesWithin, if_neg h]
      rw [hA]
      simp only [List.length_nil, List.drop_zero, List.nil_append]
      rw [show (wireAll ([] : List CFrame)).length = 0 from rfl, Nat.sub_zero]

theorem drop_append_mid {β : Type} (l c : List β) (W G : Nat) (h : W ≤ l.length) :
    (l ++ c).drop (W + G) = (l.drop W ++ c).drop G := by
  rw [← List.drop_drop]
  congr 1
  rw [List.drop_append_eq_append_drop, show W - l.length = 0 by omega, List.drop_zero]

/-- Chunking invariant of the control decoder: feeding any chunk sequence
whose concatenation is a prefix of the wire image of well-formed frames
emits exactly the fully received frames, in order, and buffers the trailing
partial frame. -/
theorem ctrlRun_invariant {α : Type} (sdec : Nat → List Nat → Option α) (frames : List CFrame)
    (hok : ∀ fr ∈ frames, FrameOK sdec fr) (chunks : List (List Nat)) :
    ∀ (suf : List Nat), chunks.flatten ++ suf = wireAll frames →
    ctrlRun sdec chunks =
      .ok ((framesWithin frames chunks.flatten.length).map (frameMsg sdec),
           chunks.flatten.drop
             (wireAll (framesWithin frames chunks.flatten.length)).length) := by
  induction chunks using List.reverseRecOn with
  | nil =>
    intro suf h
    simp [ctrlRun, framesWithin_zero, wireAll]
  | append_singleton cs c ih =>
    intro suf h
    have hflat : (cs ++ [c]).flatten = cs.flatten ++ c := by simp
    rw [hflat] at h
    rw [hflat]
    have hpre : cs.flatten ++ (c ++ suf) = wireAll frames := by
      rw [← h, List.append_assoc]
    have hrun1 := ih (c ++ suf) hpre
    have hw1le : (wireAll (framesWithin frames cs.flatten.length)).length ≤
        cs.flatten.length := framesWithin_wire_le frames _
    have hdecomp : wireAll frames =
        wireAll (framesWithin frames cs.flatten.length) ++
        wireAll (frames.drop (framesWithin frames cs.flatten.length).length) := by
      conv_lhs => rw [← List.take_append_drop
        (framesWithin frames cs.flatten.length).length frames]
      rw [wireAll_append, ← framesWithin_take]
    have hmid : cs.flatten.drop
          (wireAll (framesWithin frames cs.flatten.length)).length ++ (c ++ suf) =
        wireAll (frames.drop (framesWithin frames cs.flatten.length).length) := by
      have h2 := congrArg
        (List.drop (wireAll (framesWithin frames cs.flatten.length)).length) hpre
      rw [List.drop_append_eq_append_drop,
        show (wireAll (framesWithin frames cs.flatten.length)).length -
          cs.flatten.length = 0 by omega, List.drop_zero, hdecomp, List.drop_left] at h2
      exact h2
    have happ2 : (cs.flatten.drop
          (wireAll (framesWithin frames cs.flatten.length)).length ++ c) ++ suf =
        wireAll (frames.drop (framesWithin frames cs.flatten.length).length) := by
      rw [List.append_assoc]
      exact hmid
    have hok2 : ∀ g ∈ frames.drop (framesWithin frames cs.flatten.length).length,
        FrameOK sdec g := fun g hg => hok g (List.drop_subset _ _ hg)
    have hpush := drain_prefix sdec
      (cs.flatten.drop (wireAll (framesWithin frames cs.flatten.length)).length ++ c).length
      (frames.drop (framesWithin frames cs.flatten.length).length)
      (cs.flatten.drop (wireAll (framesWithin frames cs.flatten.length)).length ++ c)
      suf [] hok2 happ2 (le_refl _)
    have hstep : ctrlRun sdec (cs ++ [c]) =
        (match ctrlRun sdec cs with
         | .error e => .error e
         | .ok (ms, buf) =>
           match ctrlPush sdec buf c with
           | .error e => .error e
           | .ok (ms2, buf2) => .ok (ms ++ ms2, buf2)) := by
      simp only [ctrlRun, List.foldl_append, List.foldl_cons, List.foldl_nil]
    rw [hstep, hrun1]
    simp only [ctrlPush, hpush, List.nil_append]
    have hplen : (cs.flatten.drop
          (wireAll (framesWithin frames cs.flatten.length)).length ++ c).length =
        cs.flatten.length -
          (wireAll (framesWithin frames cs.flatten.length)).length + c.length := by
      simp
    have hext := framesWithin_extend frames cs.flatten.length c.length
    have htotal : (cs.flatten ++ c).length = cs.flatten.length + c.length := by simp
    have hfin1 : framesWithin frames (cs.flatten ++ c).length =
        framesWithin frames cs.flatten.length ++
        framesWithin (frames.drop (framesWithin frames cs.flatten.length).length)
          (cs.flatten.drop
            (wireAll (framesWithin frames cs.flatten.length)).length ++ c).length := by
      rw [htotal, hext, hplen]
    have hdropNc : (cs.flatten ++ c).drop
          (wireAll (framesWithin frames cs.flatten.length)).length =
        cs.flatten.drop (wireAll (framesWithin frames cs.flatten.length)).length ++ c := by
      rw [List.drop_append_eq_append_drop,
        show (wireAll (framesWithin frames cs.flatten.length)).length -
          cs.flatten.length = 0 by omega, List.drop_zero]
    have hfin2 : (cs.flatten ++ c).drop
          (wireAll (framesWithin frames (cs.flatten ++ c).length)).length =
        (cs.flatten.drop (wireAll (framesWithin frames cs.flatten.length)).length ++ c).drop
          (wireAll (framesWithin
            (frames.drop (framesWithin frames cs.flatten.length).length)
            (cs.flatten.drop
              (wireAll (framesWithin frames cs.flatten.length)).length ++ c).length)).length
        := by
      rw [hfin1, wireAll_append, List.length_append, ← List.drop_drop, hdropNc]
    rw [hfin2, hfin1, List.map_append]

theorem framesWithin_all (frames : List CFrame) :
    framesWithin frames (wireAll frames).length = frames := by
  induction frames with
  | nil => rfl
  | cons fr rest ih =>
    have hw : (wireAll (fr :: rest)).length = 6 + fr.data.length + (wireAll rest).length := by
      rw [wireAll, List.flatMap_cons, List.length_append, frameWire_length]
      rfl
    rw [hw, framesWithin, if_pos (by omega),
      show 6 + fr.data.length + (wireAll rest).length - (6 + fr.data.length) =
        (wireAll rest).length by omega, ih]

/-- Claim C8: the control decoder is a chunking-invariant stream transducer.
For every sequence of well-formed control frames and every partition of the
concatenated frame bytes into input chunks, the decoder emits exactly the
frames' (name, payload) messages in frame order with nothing buffered at the
end; and after any prefix of the chunks it has emitted exactly the frames
all of whose `6 + size` bytes have been received, buffering the rest - so no
frame is emitted before it is fully received. -/
theorem c8_control_chunking_invariance {α : Type} (sdec : Nat → List Nat → Option α)
    (frames : List CFrame) (chunks : List (List Nat))
    (hok : ∀ fr ∈ frames, FrameOK sdec fr)
    (hsplit : chunks.flatten = wireAll frames) :
    ctrlRun sdec chunks = .ok (frames.map (frameMsg sdec), []) ∧
    ∀ k, ctrlRun sdec (chunks.take k) =
      .ok ((framesWithin frames ((chunks.take k).flatten.length)).map (frameMsg sdec),
        (chunks.take k).flatten.drop
          (wireAll (framesWithin frames ((chunks.take k).flatten.length))).length) := by
  constructor
  · have h := ctrlRun_invariant sdec frames hok chunks []
      (by rw [List.append_nil, hsplit])
    rw [h, hsplit, framesWithin_all, List.drop_length]
  · intro k
    exact ctrlRun_invariant sdec frames hok (chunks.take k) ((chunks.drop k).flatten)
      (by rw [← List.flatten_append, List.take_append_drop, hsplit])

/-- Witness for C8 at two concrete frames (Version, UDPTunnel) split into
three chunks that cut both frames mid-way. -/
theorem c8_witness :
    ctrlRun (fun _ d => some (d : List Nat))
        [[0, 0, 0, 0, 0], [2, 1, 2, 0, 1, 0], [0, 0, 1, 3]] =
      .ok ([CFrame.mk 0 [1, 2], CFrame.mk 1 [3]].map
        (frameMsg (fun _ d => some d)), []) :=
  (c8_control_chunking_invariance (fun _ d => some d)
    [CFrame.mk 0 [1, 2], CFrame.mk 1 [3]]
    [[0, 0, 0, 0, 0], [2, 1, 2, 0, 1, 0], [0, 0, 1, 3]] (by decide) (by decide)).1

/-! ## UDP crypto (src udp-crypto.js, OCB2-AES128), claims C1, C4, C5, C10 -/

/-- `XOR(dst, a, b)`: byte-wise xor of the first 16 bytes.  All blocks passed
to it are 16 bytes long, so it is the pointwise xor of the two lists. -/
def xorB (a b : List Nat) : List Nat := List.zipWith (fun x y => x ^^^ y) a b

/-- `S2(block)`: double in GF(2^128).  Each write is coerced to a byte by
the `Buffer`, hence the `% 256`; the loop reads `block[i+1]` before writing
it, so the functional map is faithful. -/
def S2 (b : List Nat) : List Nat :=
  let carry := b.getD 0 0 >>> 7
  (List.range 15).map (fun i => ((b.getD i 0 <<< 1) ||| (b.getD (i + 1) 0 >>> 7)) % 256)
    ++ [((b.getD 15 0 <<< 1) ^^^ carry * 0x87) % 256]

/-- `S3(block)`: xor the block with its double; each `block[i] ^=` reads the
not-yet-modified bytes `i` and `i+1`. -/
def S3 (b : List Nat) : List Nat :=
  let carry := b.getD 0 0 >>> 7
  (List.range 15).map
    (fun i => (b.getD i 0 ^^^ ((b.getD i 0 <<< 1) ||| (b.getD (i + 1) 0 >>> 7))) % 256)
    ++ [(b.getD 15 0 ^^^ ((b.getD 15 0 <<< 1) ^^^ carry * 0x87)) % 256]

/-- State of the `while (len > BLOCK_SIZE)` loops of `ocbEncrypt` /
`ocbDecrypt`: emitted output blocks, current `delta`, current `checksum`,
and the unconsumed input (at most one block once the loop stops). -/
structure OcbSt where
  out : List Nat
  delta : List Nat
  checksum : List Nat
  rem : List Nat
deriving DecidableEq, Repr

/-- The block loop of `ocbEncrypt`, with explicit fuel for structural
recursion: every iteration consumes 16 bytes of input, so
`fuel ≥ plain.length` is an invariant of every call and fuel `0` implies
`plain.length = 0 ≤ 16`, where the source loop also stops without an
iteration - exactly the fuel-0 result. -/
def ocbEncLoop (aesE : List Nat → List Nat) :
    Nat → List Nat → List Nat → List Nat → OcbSt
  | 0, plain, delta, checksum => ⟨[], delta, checksum, plain⟩
  | fuel + 1, plain, delta, checksum =>
    if plain.length > 16 then
      let delta2 := S2 delta
      let tmp := aesE (xorB delta2 (plain.take 16))
      let cblock := xorB delta2 tmp
      let checksum2 := xorB checksum (plain.take 16)
      let r := ocbEncLoop aesE fuel (plain.drop 16) delta2 checksum2
      ⟨cblock ++ r.out, r.delta, r.checksum, r.rem⟩
    else ⟨[], delta, checksum, plain⟩

/-- The block loop of `ocbDecrypt` (same fuel discipline). -/
def ocbDecLoop (aesE aesD : List Nat → List Nat) :
    Nat → List Nat → List Nat → List Nat → OcbSt
  | 0, cipher, delta, checksum => ⟨[], delta, checksum, cipher⟩
  | fuel + 1, cipher, delta, checksum =>
    if cipher.length > 16 then
      let delta2 := S2 delta
      let tmp := aesD (xorB delta2 (cipher.take 16))
      let pblock := xorB delta2 tmp
      let checksum2 := xorB checksum pblock
      let r := ocbDecLoop aesE aesD fuel (cipher.drop 16) delta2 checksum2
      ⟨pblock ++ r.out, r.delta, r.checksum, r.rem⟩
    else ⟨[], delta, checksum, cipher⟩

/-- `ocbEncrypt(plainText, cipherText, nonce, aesEncrypt)`: returns the
written ciphertext and the tag.  The final-block bookkeeping follows the
source's buffer copies: after `plainText.copy(tmp, 0, 0, len)` and
`pad.copy(tmp, len, len, BLOCK_SIZE)` the block `tmp` is
`rem ++ pad.drop len`, and only the first `len` bytes of `XOR(tmp, pad,
tmp)` reach the ciphertext. -/
def ocbEncrypt (aesE : List Nat → List Nat) (plain nonce : List Nat) :
    List Nat × List Nat :=
  let delta0 := aesE nonce
  let r := ocbEncLoop aesE plain.length plain delta0 (List.replicate 16 0)
  let len := r.rem.length
  let delta2 := S2 r.delta
  let lenB := List.replicate 15 0 ++ [len * 8 % 256]
  let pad := aesE (xorB lenB delta2)
  let tmp2 := r.rem ++ pad.drop len
  let checksum2 := xorB r.checksum tmp2
  let cfinal := List.zipWith (fun x y => x ^^^ y) (pad.take len) r.rem
  let tag := aesE (xorB (S3 delta2) checksum2)
  (r.out ++ cfinal, tag)

/-- `ocbDecrypt(cipherText, plainText, nonce, aesEncrypt, aesDecrypt)`:
returns the written plaintext and the tag.  `len` is the length of the
`plainText` buffer, which the caller allocates with the same length as the
ciphertext. -/
def ocbDecrypt (aesE aesD : List Nat → List Nat) (cipher nonce : List Nat) :
    List Nat × List Nat :=
  let delta0 := aesE nonce
  let r := ocbDecLoop aesE aesD cipher.length cipher delta0 (List.replicate 16 0)
  let len := r.rem.length
  let delta2 := S2 r.delta
  let lenB := List.replicate 15 0 ++ [len * 8 % 256]
  let pad := aesE (xorB lenB delta2)
  let tmp2 := xorB (r.rem ++ List.replicate (16 - len) 0) pad
  let checksum2 := xorB r.checksum tmp2
  let pfinal := tmp2.take len
  let tag := aesE (xorB (S3 delta2) checksum2)
  (r.out ++ pfinal, tag)

/-- The encrypt-side IV bump: little-endian increment with carry
(`if (++iv[i] == 256) iv[i] = 0; else break`). -/
def bufInc : List Nat → List Nat
  | [] => []
  | x :: rest => if x + 1 = 256 then 0 :: bufInc rest else (x + 1) % 256 :: rest

/-- The decrypt-side carry loops (lines 102-108 and 149-155): incrementing
`decryptIV[i]` past 255 stores `0` there (byte wrap-around of `++`), but the
explicit reset in the `== 256` case is written to `this._encryptIV[i]` - the
source's typo - so the loop also zeroes the encrypt IV at every index whose
decrypt byte wrapped.  Returns the updated (decryptIV, encryptIV) tails. -/
def carryInc : List Nat → List Nat → List Nat × List Nat
  | [], e => ([], e)
  | d :: ds, e =>
    if d + 1 = 256 then
      let r := carryInc ds e.tail
      (0 :: r.1, 0 :: r.2)
    else ((d + 1) % 256 :: ds, e)

/-- The borrow loop of the late-wraparound branch (lines 133-139):
`this._decryptIV[i]--` evaluates to the old byte value (0..255), which is
never `-1`, so the loop always breaks after decrementing index 0; the
decrement itself is stored byte-wrapped (0 becomes 255). -/
def borrowDec : List Nat → List Nat
  | [] => []
  | x :: rest => (x + 255) % 256 :: rest

/-- The mutable fields of a `UdpCrypt` instance that the claims are about.
`decryptHistory` is the JS array: unset entries (`undefined`) are `none` and
compare unequal to every byte. -/
structure UdpCrypt where
  encryptIV : List Nat
  decryptIV : List Nat
  decryptHistory : Nat → Option Nat

/-- Everything observable about one `decrypt` call: the returned plaintext
(`none` is `return null`), the post-call state, and the amounts added to
`stats.late` / `stats.lost` (0 when the call fails, since failures return
before the stats update). -/
structure DecryptResult where
  plain : Option (List Nat)
  state : UdpCrypt
  late : Int
  lost : Int

/-- `UdpCrypt.prototype.encrypt`: bump the IV, OCB-encrypt with it, and
prepend the IV byte and the first three tag bytes. -/
def UdpCrypt.encrypt (aesE : List Nat → List Nat) (st : UdpCrypt) (plain : List Nat) :
    List Nat × UdpCrypt :=
  let eiv := bufInc st.encryptIV
  let ct := ocbEncrypt aesE plain eiv
  (eiv.getD 0 0 :: ct.2.getD 0 0 :: ct.2.getD 1 0 :: ct.2.getD 2 0 :: ct.1,
   { st with encryptIV := eiv })

/-- `UdpCrypt.prototype.decrypt`.  The nonce-sync branches follow lines
96-164; the two carry loops go through `carryInc` (which also models the
`encryptIV[i] = 0` typo), the late-wraparound borrow through `borrowDec`.
The history check (line 160) runs only in the out-of-order branch; the
history write (line 179) happens after the tag check; `restore` puts the
saved IV back after a successful late decrypt. -/
def UdpCrypt.decrypt (aesE aesD : List Nat → List Nat) (st : UdpCrypt)
    (cipherText : List Nat) : DecryptResult :=
  if cipherText.length < 4 then ⟨none, st, 0, 0⟩
  else
    let saveiv := st.decryptIV
    let ivbyte := cipherText.getD 0 0
    let d0 := st.decryptIV.getD 0 0
    let sync : Option (List Nat × List Nat × Bool × Int × Int × Bool) :=
      if (d0 + 1) &&& 0xFF = ivbyte then
        if ivbyte > d0 then
          some (st.decryptIV.set 0 ivbyte, st.encryptIV, false, 0, 0, false)
        else if ivbyte < d0 then
          let r := carryInc st.decryptIV.tail st.encryptIV.tail
          some (ivbyte :: r.1, st.encryptIV.headD 0 :: r.2, false, 0, 0, false)
        else none
      else
        let diff0 : Int := (ivbyte : Int) - (d0 : Int)
        let diff : Int := if diff0 > 128 then diff0 - 256
          else if diff0 < -128 then diff0 + 256 else diff0
        if ivbyte < d0 ∧ diff > -30 ∧ diff < 0 then
          some (st.decryptIV.set 0 ivbyte, st.encryptIV, true, 1, -1, true)
        else if ivbyte > d0 ∧ diff > -30 ∧ diff < 0 then
          some (borrowDec (st.decryptIV.set 0 ivbyte), st.encryptIV, true, 1, -1, true)
        else if ivbyte > d0 ∧ diff > 0 then
          some (st.decryptIV.set 0 ivbyte, st.encryptIV, false, 0,
            (ivbyte : Int) - (d0 : Int) - 1, true)
        else if ivbyte < d0 ∧ diff > 0 then
          let r := carryInc (st.decryptIV.set 0 ivbyte) st.encryptIV
          some (r.1, r.2, false, 0, 256 - (d0 : Int) + (ivbyte : Int) - 1, true)
        else none
    match sync with
    | none => ⟨none, st, 0, 0⟩
    | some (div, eiv, restore, late, lost, checkHistory) =>
      if checkHistory ∧ st.decryptHistory (div.getD 0 0) = some (div.getD 1 0) then
        ⟨none, { st with decryptIV := saveiv, encryptIV := eiv }, 0, 0⟩
      else
        let pt := ocbDecrypt aesE aesD (cipherText.drop 4) div
        if pt.2.take 3 ≠ (cipherText.drop 1).take 3 then
          ⟨none, { st with decryptIV := saveiv, encryptIV := eiv }, 0, 0⟩
        else
          let hist2 := Function.update st.decryptHistory (div.getD 0 0)
            (some (div.getD 1 0))
          ⟨some pt.1,
           { encryptIV := eiv, decryptIV := if restore then saveiv else div,
             decryptHistory := hist2 }, late, lost⟩

theorem xorB_length (a b : List Nat) : (xorB a b).length = min a.length b.length := by
  simp [xorB]

theorem S2_length (b : List Nat) : (S2 b).length = 16 := by
  simp [S2]

theorem S3_length (b : List Nat) : (S3 b).length = 16 := by
  simp [S3]

theorem xorB_cancel : ∀ (a x : List Nat), a.length = x.length → xorB a (xorB a x) = x := by
  intro a
  induction a with
  | nil =>
    intro x h
    rw [List.length_nil] at h
    rw [List.length_eq_zero.mp h.symm]
    rfl
  | cons y ys ih =>
    intro x h
    cases x with
    | nil => simp at h
    | cons z zs =>
      simp only [xorB, List.zipWith_cons_cons]
      rw [show y ^^^ (y ^^^ z) = z by rw [← Nat.xor_assoc, Nat.xor_self, Nat.zero_xor]]
      have := ih zs (by simpa using h)
      simp only [xorB] at this
      rw [this]

theorem xorB_cancel_right : ∀ (p r : List Nat), p.length = r.length →
    xorB (xorB p r) p = r := by
  intro p
  induction p with
  | nil =>
    intro r h
    rw [List.length_nil] at h
    rw [List.length_eq_zero.mp h.symm]
    rfl
  | cons y ys ih =>
    intro r h
    cases r with
    | nil => simp at h
    | cons z zs =>
      simp only [xorB, List.zipWith_cons_cons]
      rw [show y ^^^ z ^^^ y = z by
        rw [Nat.xor_comm y z, Nat.xor_assoc, Nat.xor_self, Nat.xor_zero]]
      have := ih zs (by simpa using h)
      simp only [xorB] at this
      rw [this]

theorem xorB_zero : ∀ (n : Nat) (l : List Nat),
    xorB (List.replicate n 0) l = l.take n := by
  intro n
  induction n with
  | zero => intro l; rfl
  | succ m ih =>
    intro l
    cases l with
    | nil => rfl
    | cons x xs =>
      simp only [xorB, List.replicate_succ, List.zipWith_cons_cons, Nat.zero_xor,
        List.take_succ_cons]
      have := ih xs
      simp only [xorB] at this
      rw [this]

/-- Lockstep correctness of the two OCB block loops: decrypting the emitted
cipher blocks (followed by any final-block bytes) recovers the consumed
plaintext prefix with the same final `delta` and `checksum`. -/
theorem ocb_loops (aesE aesD : List Nat → List Nat)
    (hE : ∀ b : List Nat, b.length = 16 → (aesE b).length = 16)
    (hED : ∀ b : List Nat, b.length = 16 → aesD (aesE b) = b) (fuel : Nat) :
    ∀ (plain delta checksum fin : List Nat),
    delta.length = 16 → plain.length ≤ fuel →
    fin.length = (ocbEncLoop aesE fuel plain delta checksum).rem.length →
    (ocbEncLoop aesE fuel plain delta checksum).rem.length ≤ 16 ∧
    (ocbEncLoop aesE fuel plain delta checksum).out.length +
      (ocbEncLoop aesE fuel plain delta checksum).rem.length = plain.length ∧
    (ocbEncLoop aesE fuel plain delta checksum).rem =
      plain.drop (ocbEncLoop aesE fuel plain delta checksum).out.length ∧
    (ocbEncLoop aesE fuel plain delta checksum).delta.length = 16 ∧
    ocbDecLoop aesE aesD fuel
        ((ocbEncLoop aesE fuel plain delta checksum).out ++ fin) delta checksum =
      ⟨plain.take (ocbEncLoop aesE fuel plain delta checksum).out.length,
       (ocbEncLoop aesE fuel plain delta checksum).delta,
       (ocbEncLoop aesE fuel plain delta checksum).checksum, fin⟩ := by
  induction fuel with
  | zero =>
    intro plain delta checksum fin h16 hfuel hfin
    have hpl : plain = [] := List.length_eq_zero.mp (by omega)
    subst hpl
    simp only [ocbEncLoop, ocbDecLoop] at hfin ⊢
    simp_all
  | succ fuel ih =>
    intro plain delta checksum fin h16 hfuel hfin
    by_cases hgt : plain.length > 16
    · have htl : (plain.take 16).length = 16 := by
        rw [List.length_take]
        omega
      have hxl : (xorB (S2 delta) (plain.take 16)).length = 16 := by
        rw [xorB_length, S2_length, htl]
        omega
      have htmpl : (aesE (xorB (S2 delta) (plain.take 16))).length = 16 := hE _ hxl
      have hcbl : (xorB (S2 delta) (aesE (xorB (S2 delta) (plain.take 16)))).length = 16 := by
        rw [xorB_length, S2_length, htmpl]
        omega
      have henc : ocbEncLoop aesE (fuel + 1) plain delta checksum =
          ⟨xorB (S2 delta) (aesE (xorB (S2 delta) (plain.take 16))) ++
            (ocbEncLoop aesE fuel (plain.drop 16) (S2 delta)
              (xorB checksum (plain.take 16))).out,
           (ocbEncLoop aesE fuel (plain.drop 16) (S2 delta)
              (xorB checksum (plain.take 16))).delta,
           (ocbEncLoop aesE fuel (plain.drop 16) (S2 delta)
              (xorB checksum (plain.take 16))).checksum,
           (ocbEncLoop aesE fuel (plain.drop 16) (S2 delta)
              (xorB checksum (plain.take 16))).rem⟩ := by
        rw [ocbEncLoop, if_pos hgt]
      obtain ⟨ih1, ih2, ih3, ih4, ih5⟩ := ih (plain.drop 16) (S2 delta)
        (xorB checksum (plain.take 16)) fin (S2_length delta)
        (by rw [List.length_drop]; omega)
        (by rw [hfin, henc])
      refine ⟨by rw [henc]; exact ih1, ?_, ?_, by rw [henc]; exact ih4, ?_⟩
      · rw [henc]
        simp only [List.length_append, hcbl]
        rw [List.length_drop] at ih2
        omega
      · rw [henc]
        simp only [List.length_append, hcbl]
        rw [ih3, List.drop_drop]
      · rw [henc]
        have hfin2 : fin.length = (ocbEncLoop aesE fuel (plain.drop 16) (S2 delta)
            (xorB checksum (plain.take 16))).rem.length := by
          rw [hfin, henc]
        have hlens := ih2
        rw [List.length_drop] at hlens
        have hclen : (xorB (S2 delta) (aesE (xorB (S2 delta) (plain.take 16))) ++
            ((ocbEncLoop aesE fuel (plain.drop 16) (S2 delta)
              (xorB checksum (plain.take 16))).out ++ fin)).length > 16 := by
          simp only [List.length_append, hcbl]
          omega
        rw [List.append_assoc]
        simp only [ocbDecLoop]
        rw [if_pos hclen]
        rw [List.take_left' hcbl, List.drop_left' hcbl]
        rw [xorB_cancel (S2 delta) (aesE (xorB (S2 delta) (plain.take 16)))
          (by rw [S2_length, htmpl]),
          hED _ hxl,
          xorB_cancel (S2 delta) (plain.take 16) (by rw [S2_length, htl])]
        rw [ih5]
        simp only [List.length_append, hcbl]
        rw [List.take_add]
    · have henc : ocbEncLoop aesE (fuel + 1) plain delta checksum =
          ⟨[], delta, checksum, plain⟩ := by
        rw [ocbEncLoop, if_neg hgt]
      rw [henc] at hfin ⊢
      dsimp only at hfin ⊢
      refine ⟨by omega, by simp, by simp, h16, ?_⟩
      rw [List.nil_append]
      simp only [ocbDecLoop]
      rw [if_neg (by omega)]
      simp

/-- The decrypt side's final-block xor undoes the encrypt side's: xoring the
final cipher bytes (zero-padded to a block) with `pad` yields the remaining
plaintext followed by the tail of `pad` - the identical block the encrypt
side fed into its checksum. -/
theorem final_block_xor (pad rem : List Nat) (hp : pad.length = 16)
    (hr : rem.length ≤ 16) :
    xorB (List.zipWith (fun x y => x ^^^ y) (pad.take rem.length) rem ++
      List.replicate (16 - rem.length) 0) pad = rem ++ pad.drop rem.length := by
  have htl : (pad.take rem.length).length = rem.length := by
    rw [List.length_take]
    omega
  have hal : (List.zipWith (fun x y => x ^^^ y) (pad.take rem.length) rem).length =
      rem.length := by
    rw [List.length_zipWith, htl]
    omega
  have hsplit : xorB (List.zipWith (fun x y => x ^^^ y) (pad.take rem.length) rem ++
      List.replicate (16 - rem.length) 0) pad =
      xorB (List.zipWith (fun x y => x ^^^ y) (pad.take rem.length) rem ++
        List.replicate (16 - rem.length) 0) (pad.take rem.length ++ pad.drop rem.length) := by
    rw [List.take_append_drop]
  rw [hsplit, xorB, List.zipWith_append _ _ _ _ _ (by rw [hal, htl])]
  have hleft : List.zipWith (fun x y => x ^^^ y)
      (List.zipWith (fun x y => x ^^^ y) (pad.take rem.length) rem) (pad.take rem.length) =
      rem := by
    have h := xorB_cancel_right (pad.take rem.length) rem (by rw [htl])
    simpa [xorB] using h
  have hright : List.zipWith (fun x y => x ^^^ y)
      (List.replicate (16 - rem.length) 0) (pad.drop rem.length) = pad.drop rem.length := by
    have h := xorB_zero (16 - rem.length) (pad.drop rem.length)
    rw [xorB] at h
    rw [h, List.take_of_length_le (by rw [List.length_drop, hp])]
  rw [hleft, hright]

/-- OCB round trip: decrypting an encrypted payload with the same nonce and
an AES pair that invert each other on blocks returns the plaintext and the
same tag. -/
theorem ocb_roundtrip (aesE aesD : List Nat → List Nat)
    (hE : ∀ b : List Nat, b.length = 16 → (aesE b).length = 16)
    (hED : ∀ b : List Nat, b.length = 16 → aesD (aesE b) = b)
    (plain nonce : List Nat) (hn : nonce.length = 16) :
    ocbDecrypt aesE aesD (ocbEncrypt aesE plain nonce).1 nonce =
      (plain, (ocbEncrypt aesE plain nonce).2) := by
  have hd0 : (aesE nonce).length = 16 := hE nonce hn
  obtain ⟨h1, h2, h3, h4, -⟩ := ocb_loops aesE aesD hE hED plain.length plain (aesE nonce)
    (List.replicate 16 0)
    (ocbEncLoop aesE plain.length plain (aesE nonce) (List.replicate 16 0)).rem
    hd0 (le_refl _) rfl
  simp only [ocbEncrypt]
  set E := ocbEncLoop aesE plain.length plain (aesE nonce) (List.replicate 16 0) with hEdef
  have hxb : (xorB (List.replicate 15 0 ++ [E.rem.length * 8 % 256]) (S2 E.delta)).length =
      16 := by
    rw [xorB_length, S2_length]
    simp
  have hpad : (aesE (xorB (List.replicate 15 0 ++ [E.rem.length * 8 % 256])
      (S2 E.delta))).length = 16 := hE _ hxb
  have hcf : (List.zipWith (fun x y => x ^^^ y)
      ((aesE (xorB (List.replicate 15 0 ++ [E.rem.length * 8 % 256])
        (S2 E.delta))).take E.rem.length) E.rem).length = E.rem.length := by
    rw [List.length_zipWith, List.length_take, hpad]
    omega
  obtain ⟨-, -, -, -, h5⟩ := ocb_loops aesE aesD hE hED plain.length plain (aesE nonce)
    (List.replicate 16 0)
    (List.zipWith (fun x y => x ^^^ y)
      ((aesE (xorB (List.replicate 15 0 ++ [E.rem.length * 8 % 256])
        (S2 E.delta))).take E.rem.length) E.rem)
    hd0 (le_refl _) hcf
  simp only [ocbDecrypt]
  have hclen : (E.out ++ List.zipWith (fun x y => x ^^^ y)
      ((aesE (xorB (List.replicate 15 0 ++ [E.rem.length * 8 % 256])
        (S2 E.delta))).take E.rem.length) E.rem).length = plain.length := by
    rw [List.length_append, hcf]
    omega
  rw [hclen, h5]
  simp only
  rw [hcf]
  rw [final_block_xor _ _ hpad h1]
  rw [List.take_left' rfl]
  rw [h3, List.take_append_drop]

theorem bufInc_length : ∀ l : List Nat, (bufInc l).length = l.length := by
  intro l
  induction l with
  | nil => rfl
  | cons x rest ih =>
    rw [bufInc]
    by_cases h : x + 1 = 256
    · rw [if_pos h, List.length_cons, List.length_cons, ih]
    · rw [if_neg h, List.length_cons, List.length_cons]

/-- The decrypt-side carry loop computes the same decrypt IV as the
encrypt-side increment (the typo only affects the encrypt IV). -/
theorem carryInc_fst : ∀ (d e : List Nat), (carryInc d e).1 = bufInc d := by
  intro d
  induction d with
  | nil => intro e; rfl
  | cons x rest ih =>
    intro e
    rw [carryInc, bufInc]
    by_cases h : x + 1 = 256
    · rw [if_pos h, if_pos h]
      simp only
      rw [ih]
    · rw [if_neg h, if_neg h]

theorem encLoop_checksum_length (aesE : List Nat → List Nat) : ∀ (fuel : Nat)
    (plain delta checksum : List Nat), checksum.length = 16 →
    (ocbEncLoop aesE fuel plain delta checksum).checksum.length = 16 := by
  intro fuel
  induction fuel with
  | zero => intro plain delta checksum h; exact h
  | succ fuel ih =>
    intro plain delta checksum h
    rw [ocbEncLoop]
    by_cases hgt : plain.length > 16
    · rw [if_pos hgt]
      simp only
      exact ih _ _ _ (by rw [xorB_length, h, List.length_take]; omega)
    · rw [if_neg hgt]
      exact h

theorem ocbEncrypt_length (aesE aesD : List Nat → List Nat)
    (hE : ∀ b : List Nat, b.length = 16 → (aesE b).length = 16)
    (hED : ∀ b : List Nat, b.length = 16 → aesD (aesE b) = b)
    (plain nonce : List Nat) (hn : nonce.length = 16) :
    (ocbEncrypt aesE plain nonce).1.length = plain.length := by
  have hd0 : (aesE nonce).length = 16 := hE nonce hn
  obtain ⟨h1, h2, h3, h4, -⟩ := ocb_loops aesE aesD hE hED plain.length plain (aesE nonce)
    (List.replicate 16 0)
    (ocbEncLoop aesE plain.length plain (aesE nonce) (List.replicate 16 0)).rem
    hd0 (le_refl _) rfl
  simp only [ocbEncrypt]
  set E := ocbEncLoop aesE plain.length plain (aesE nonce) (List.replicate 16 0) with hEdef
  have hpad : (aesE (xorB (List.replicate 15 0 ++ [E.rem.length * 8 % 256])
      (S2 E.delta))).length = 16 := by
    apply hE
    rw [xorB_length, S2_length]
    simp
  rw [List.length_append, List.length_zipWith, List.length_take, hpad]
  omega

theorem ocbEncrypt_tag_length (aesE aesD : List Nat → List Nat)
    (hE : ∀ b : List Nat, b.length = 16 → (aesE b).length = 16)
    (hED : ∀ b : List Nat, b.length = 16 → aesD (aesE b) = b)
    (plain nonce : List Nat) (hn : nonce.length = 16) :
    (ocbEncrypt aesE plain nonce).2.length = 16 := by
  have hd0 : (aesE nonce).length = 16 := hE nonce hn
  obtain ⟨h1, h2, h3, h4, -⟩ := ocb_loops aesE aesD hE hED plain.length plain (aesE nonce)
    (List.replicate 16 0)
    (ocbEncLoop aesE plain.length plain (aesE nonce) (List.replicate 16 0)).rem
    hd0 (le_refl _) rfl
  have hcs : (ocbEncLoop aesE plain.length plain (aesE nonce)
      (List.replicate 16 0)).checksum.length = 16 :=
    encLoop_checksum_length aesE plain.length plain (aesE nonce) (List.replicate 16 0)
      (by simp)
  simp only [ocbEncrypt]
  set E := ocbEncLoop aesE plain.length plain (aesE nonce) (List.replicate 16 0) with hEdef
  have hpad : (aesE (xorB (List.replicate 15 0 ++ [E.rem.length * 8 % 256])
      (S2 E.delta))).length = 16 := by
    apply hE
    rw [xorB_length, S2_length]
    simp
  apply hE
  rw [xorB_length, S3_length, xorB_length, hcs, List.length_append, List.length_drop, hpad]
  omega

theorem take3_of_len16 (l : List Nat) (h : l.length = 16) :
    l.take 3 = [l.getD 0 0, l.getD 1 0, l.getD 2 0] := by
  cases l with
  | nil => simp at h
  | cons a t =>
    cases t with
    | nil => simp at h
    | cons b u =>
      cases u with
      | nil => simp at h
      | cons c v => rfl

/-- Claim C1: crypto round trip.  For every plaintext and every ready state
(16 encrypt-IV bytes), a mirrored receiver - same key, modelled by sharing
the AES-128-ECB block functions, with `decryptIV` equal to the sender's
`encryptIV` - decrypts `encrypt`'s output back to the plaintext, and its
`decryptIV` afterwards equals the sender's post-call `encryptIV`. -/
theorem c1_crypto_roundtrip (aesE aesD : List Nat → List Nat)
    (hE : ∀ b : List Nat, b.length = 16 → (aesE b).length = 16)
    (hED : ∀ b : List Nat, b.length = 16 → aesD (aesE b) = b)
    (S Sr : UdpCrypt) (plain : List Nat)
    (hiv : Sr.decryptIV = S.encryptIV)
    (hlen : S.encryptIV.length = 16)
    (hbytes : ∀ b ∈ S.encryptIV, b < 256) :
    (UdpCrypt.decrypt aesE aesD Sr (UdpCrypt.encrypt aesE S plain).1).plain = some plain ∧
    (UdpCrypt.decrypt aesE aesD Sr (UdpCrypt.encrypt aesE S plain).1).state.decryptIV =
      (UdpCrypt.encrypt aesE S plain).2.encryptIV := by
  obtain ⟨x, rest, hS⟩ : ∃ x rest, S.encryptIV = x :: rest := by
    cases hE2 : S.encryptIV with
    | nil => rw [hE2] at hlen; simp at hlen
    | cons a t => exact ⟨a, t, rfl⟩
  have hx : x < 256 := hbytes x (by rw [hS]; simp)
  have hN16 : (bufInc (x :: rest)).length = 16 := by
    rw [bufInc_length]
    rw [hS] at hlen
    exact hlen
  have hivS : Sr.decryptIV = x :: rest := by rw [hiv, hS]
  have henc : (UdpCrypt.encrypt aesE S plain).1 =
      (bufInc (x :: rest)).getD 0 0 ::
      (ocbEncrypt aesE plain (bufInc (x :: rest))).2.getD 0 0 ::
      (ocbEncrypt aesE plain (bufInc (x :: rest))).2.getD 1 0 ::
      (ocbEncrypt aesE plain (bufInc (x :: rest))).2.getD 2 0 ::
      (ocbEncrypt aesE plain (bufInc (x :: rest))).1 := by
    simp only [UdpCrypt.encrypt, hS]
  have henc2 : (UdpCrypt.encrypt aesE S plain).2.encryptIV = bufInc (x :: rest) := by
    simp only [UdpCrypt.encrypt, hS]
  rw [henc, henc2]
  set N := bufInc (x :: rest) with hNdef
  set T := (ocbEncrypt aesE plain N).2 with hTdef
  set C := (ocbEncrypt aesE plain N).1 with hCdef
  have hrt : ocbDecrypt aesE aesD C N = (plain, T) :=
    ocb_roundtrip aesE aesD hE hED plain N hN16
  have htag16 : T.length = 16 :=
    ocbEncrypt_tag_length aesE aesD hE hED plain N hN16
  have htake3 : T.take 3 = [T.getD 0 0, T.getD 1 0, T.getD 2 0] :=
    take3_of_len16 T htag16
  simp only [UdpCrypt.decrypt]
  rw [if_neg (by simp)]
  simp only [List.getD_cons_zero, hivS]
  by_cases hw : x + 1 = 256
  · have hN0 : N.getD 0 0 = 0 := by
      rw [hNdef, bufInc, if_pos hw, List.getD_cons_zero]
    have hc1 : ((x + 1) &&& 0xFF = 0) ↔ True := by
      rw [and_255, hw]
      simp
    have hc2 : ((0 : Nat) > x) ↔ False := by simp
    have hc3 : ((0 : Nat) < x) ↔ True := by
      simp only [iff_true]
      omega
    have hNeq : (0 : Nat) :: (carryInc rest Sr.encryptIV.tail).1 = N := by
      rw [carryInc_fst, hNdef, bufInc, if_pos hw]
    have hdrop4 : ((0 : Nat) :: T.getD 0 0 :: T.getD 1 0 :: T.getD 2 0 :: C).drop 4 = C := rfl
    have hd13 : (((0 : Nat) :: T.getD 0 0 :: T.getD 1 0 :: T.getD 2 0 :: C).drop 1).take 3 =
        [T.getD 0 0, T.getD 1 0, T.getD 2 0] := rfl
    simp only [List.getD_cons_zero, List.tail_cons, hN0, hc1, hc2, hc3, if_true, if_false,
      eq_self_iff_true, Bool.false_eq_true, false_and, hNeq, hdrop4, hd13, hrt, htake3]
    simp
  · have hN0 : N.getD 0 0 = x + 1 := by
      rw [hNdef, bufInc, if_neg hw, List.getD_cons_zero, Nat.mod_eq_of_lt (by omega)]
    have hNeq : (x :: rest).set 0 (x + 1) = N := by
      rw [hNdef, bufInc, if_neg hw, Nat.mod_eq_of_lt (by omega)]
      rfl
    have hc1 : ((x + 1) &&& 0xFF = x + 1) ↔ True := by
      rw [and_255, Nat.mod_eq_of_lt (by omega)]
      simp
    have hc2 : (x + 1 > x) ↔ True := by simp
    have hdrop4 : ((x + 1) :: T.getD 0 0 :: T.getD 1 0 :: T.getD 2 0 :: C).drop 4 = C := rfl
    have hd13 : (((x + 1) :: T.getD 0 0 :: T.getD 1 0 :: T.getD 2 0 :: C).drop 1).take 3 =
        [T.getD 0 0, T.getD 1 0, T.getD 2 0] := rfl
    simp only [List.getD_cons_zero, hN0, hc1, hc2, if_true, eq_self_iff_true,
      Bool.false_eq_true, false_and, hNeq, hdrop4, hd13, hrt, htake3]
    simp

/-- Witness for C1 with the identity block cipher and concrete IVs. -/
theorem c1_witness :
    (UdpCrypt.decrypt (fun b => b) (fun b => b)
        ⟨List.replicate 16 9, List.replicate 16 7, fun _ => none⟩
        (UdpCrypt.encrypt (fun b => b)
          ⟨List.replicate 16 7, List.replicate 16 0, fun _ => none⟩ [1, 2, 3]).1).plain =
      some [1, 2, 3] ∧
    (UdpCrypt.decrypt (fun b => b) (fun b => b)
        ⟨List.replicate 16 9, List.replicate 16 7, fun _ => none⟩
        (UdpCrypt.encrypt (fun b => b)
          ⟨List.replicate 16 7, List.replicate 16 0, fun _ => none⟩ [1, 2, 3]).1).state.decryptIV =
      (UdpCrypt.encrypt (fun b => b)
        ⟨List.replicate 16 7, List.replicate 16 0, fun _ => none⟩ [1, 2, 3]).2.encryptIV :=
  c1_crypto_roundtrip (fun b => b) (fun b => b) (fun _ h => h) (fun _ _ => rfl)
    ⟨List.replicate 16 7, List.replicate 16 0, fun _ => none⟩
    ⟨List.replicate 16 9, List.replicate 16 7, fun _ => none⟩
    [1, 2, 3] rfl (by decide) (by decide)

/-- Claim C4: decrypt failure atomicity.  Whenever `decrypt` returns `null`
(short input, nonce out of range, replay-history hit, or tag mismatch), the
post-call `decryptIV` equals its pre-call value - the failing branches
either never touched it or restored `saveiv` - and `decryptHistory` is
unmodified, because its only write (line 179) happens after the tag check
passes. -/
theorem c4_decrypt_failure_atomicity (aesE aesD : List Nat → List Nat) (st : UdpCrypt)
    (cipherText : List Nat)
    (h : (UdpCrypt.decrypt aesE aesD st cipherText).plain = none) :
    (UdpCrypt.decrypt aesE aesD st cipherText).state.decryptIV = st.decryptIV ∧
    (UdpCrypt.decrypt aesE aesD st cipherText).state.decryptHistory =
      st.decryptHistory := by
  have key : ∀ res : DecryptResult, UdpCrypt.decrypt aesE aesD st cipherText = res →
      res.plain = none →
      res.state.decryptIV = st.decryptIV ∧
      res.state.decryptHistory = st.decryptHistory := by
    intro res hres hplain
    simp only [UdpCrypt.decrypt] at hres
    split at hres
    · subst hres
      exact ⟨rfl, rfl⟩
    · split at hres
      · subst hres
        exact ⟨rfl, rfl⟩
      · split at hres
        · subst hres
          exact ⟨rfl, rfl⟩
        · split at hres
          · subst hres
            exact ⟨rfl, rfl⟩
          · subst hres
            simp at hplain
  exact key _ rfl h

/-- Witness for C4: a tag-mismatch failure (forged packet) with the identity
block cipher. -/
theorem c4_witness :
    (UdpCrypt.decrypt (fun b => b) (fun b => b)
        ⟨List.replicate 16 0, List.replicate 16 255, fun _ => none⟩ [0, 1, 2, 3]).plain =
      none ∧
    ((UdpCrypt.decrypt (fun b => b) (fun b => b)
        ⟨List.replicate 16 0, List.replicate 16 255, fun _ => none⟩
        [0, 1, 2, 3]).state.decryptIV =
      (⟨List.replicate 16 0, List.replicate 16 255, fun _ => none⟩ : UdpCrypt).decryptIV ∧
     (UdpCrypt.decrypt (fun b => b) (fun b => b)
        ⟨List.replicate 16 0, List.replicate 16 255, fun _ => none⟩
        [0, 1, 2, 3]).state.decryptHistory =
      (⟨List.replicate 16 0, List.replicate 16 255, fun _ => none⟩ :
        UdpCrypt).decryptHistory) :=
  ⟨by decide,
   c4_decrypt_failure_atomicity (fun b => b) (fun b => b)
     ⟨List.replicate 16 0, List.replicate 16 255, fun _ => none⟩ [0, 1, 2, 3] (by decide)⟩

/-- Claim C5 (code bug evaluation): late packet across wraparound.  With
`decryptIV = [2, 9, 0, ...]` and an incoming IV byte `255` (`diff = -3`),
the borrow loop's test `this._decryptIV[i]-- == -1` compares the old byte
value (always 0..255) with `-1`, so it always breaks after one decrement:
the nonce actually used is `[254, 9, 0, ...]` (index 0 decremented, higher
bytes untouched) instead of the claimed `[255, 8, 0, ...]` (IV byte kept,
borrow taken from the higher bytes).  Late/lost counting and the IV
restore do work as claimed: a packet sealed with the buggy nonce decrypts
with `late = 1`, `lost = -1` and a restored `decryptIV`, while a packet
sealed with the claimed nonce is rejected. -/
theorem c5_late_wraparound_borrow_bug :
    borrowDec ((([2, 9] ++ List.replicate 14 0 : List Nat)).set 0 255) =
      [254, 9] ++ List.replicate 14 0 ∧
    ([254, 9] ++ List.replicate 14 0 : List Nat) ≠ [255, 8] ++ List.replicate 14 0 ∧
    (UdpCrypt.decrypt (fun b => b) (fun b => b)
        ⟨List.replicate 16 7, [2, 9] ++ List.replicate 14 0, fun _ => none⟩
        (255 :: ((ocbEncrypt (fun b => b) [171]
            ([254, 9] ++ List.replicate 14 0)).2.take 3 ++
          (ocbEncrypt (fun b => b) [171] ([254, 9] ++ List.replicate 14 0)).1))).plain =
      some [171] ∧
    (UdpCrypt.decrypt (fun b => b) (fun b => b)
        ⟨List.replicate 16 7, [2, 9] ++ List.replicate 14 0, fun _ => none⟩
        (255 :: ((ocbEncrypt (fun b => b) [171]
            ([254, 9] ++ List.replicate 14 0)).2.take 3 ++
          (ocbEncrypt (fun b => b) [171] ([254, 9] ++ List.replicate 14 0)).1))).late =
      1 ∧
    (UdpCrypt.decrypt (fun b => b) (fun b => b)
        ⟨List.replicate 16 7, [2, 9] ++ List.replicate 14 0, fun _ => none⟩
        (255 :: ((ocbEncrypt (fun b => b) [171]
            ([254, 9] ++ List.replicate 14 0)).2.take 3 ++
          (ocbEncrypt (fun b => b) [171] ([254, 9] ++ List.replicate 14 0)).1))).lost =
      -1 ∧
    (UdpCrypt.decrypt (fun b => b) (fun b => b)
        ⟨List.replicate 16 7, [2, 9] ++ List.replicate 14 0, fun _ => none⟩
        (255 :: ((ocbEncrypt (fun b => b) [171]
            ([254, 9] ++ List.replicate 14 0)).2.take 3 ++
          (ocbEncrypt (fun b => b) [171]
            ([254, 9] ++ List.replicate 14 0)).1))).state.decryptIV =
      [2, 9] ++ List.replicate 14 0 ∧
    (UdpCrypt.decrypt (fun b => b) (fun b => b)
        ⟨List.replicate 16 7, [2, 9] ++ List.replicate 14 0, fun _ => none⟩
        (255 :: ((ocbEncrypt (fun b => b) [171]
            ([255, 8] ++ List.replicate 14 0)).2.take 3 ++
          (ocbEncrypt (fun b => b) [171] ([255, 8] ++ List.replicate 14 0)).1))).plain =
      none := by
  refine ⟨by decide, by decide, by decide, by decide, by decide, by decide, by decide⟩

/-- Claim C10 (code bug evaluation): `decrypt` does not leave `encryptIV`
unchanged.  With `decryptIV = [255, 255, 0, ...]` and IV byte `0`, the
in-order wraparound carry loop executes `this._encryptIV[i] = 0` (lines
103-104, a typo for `decryptIV`) at index 1, zeroing a byte of the
*encrypt* IV - even though the call then fails the tag check. -/
theorem c10_decrypt_clobbers_encryptIV :
    (UdpCrypt.decrypt (fun b => b) (fun b => b)
        ⟨List.replicate 16 7, [255, 255] ++ List.replicate 14 0, fun _ => none⟩
        [0, 0, 0, 0]).state.encryptIV = 7 :: 0 :: List.replicate 14 7 ∧
    (7 : Nat) :: 0 :: List.replicate 14 7 ≠ List.replicate 16 7 := by
  refine ⟨by decide, by decide⟩

end MumbleStreams
